import Mathlib

/-!
# go-pagination: `Pagination.Values`

A shallow embedding of `pagination.go` and the properties of `Values`.

Go's `int` is taken to be the 64-bit two's-complement integer of the usual
targets (amd64, arm64): values are `Int`s, and every `+`, `-`, `*` of the
source is followed by an explicit reduction into `[-2^63, 2^63)`.

`float64` is modelled exactly.  A finite double is a rational with a power of
two as denominator, kept here as a numerator and a denominator.  The two
roundings the source performs (`float64(int)` and `/`) round to 53 significant
bits, ties to even, as IEEE 754 prescribes.  All magnitudes that `Values` can
produce lie between `2^-63` and `2^63`, so neither subnormals nor infinities
occur and the exponent range is not modelled.
-/

namespace GoPagination

/-! ## Machine integers -/

/-- Largest value of Go's `int` (64 bit). -/
def MaxInt : Int := 2 ^ 63 - 1

/-- Smallest value of Go's `int` (64 bit). -/
def MinInt : Int := -2 ^ 63

/-- The values of Go's `int`. -/
def IsInt (x : Int) : Prop := MinInt ≤ x ∧ x ≤ MaxInt

instance (x : Int) : Decidable (IsInt x) := by
  unfold IsInt; exact inferInstance

/-- Reduction of a mathematical integer to the two's-complement `int` that Go
keeps after an overflowing operation. -/
def wrap (x : Int) : Int := (x + 2 ^ 63) % 2 ^ 64 - 2 ^ 63

/-- Go's `a + b` on `int`. -/
def intAdd (a b : Int) : Int := wrap (a + b)

/-- Go's `a - b` on `int`. -/
def intSub (a b : Int) : Int := wrap (a - b)

/-- Go's `a * b` on `int`. -/
def intMul (a b : Int) : Int := wrap (a * b)

/-! ## `float64` -/

/-- Auxiliary for `log2`: the first argument bounds the number of halvings. -/
def log2Aux : Nat → Nat → Nat
  | 0, _ => 0
  | fuel + 1, n => if n < 2 then 0 else log2Aux fuel (n / 2) + 1

/-- Position of the leading bit of `n`: `2 ^ log2 n ≤ n < 2 ^ (log2 n + 1)`
for `n ≠ 0`. -/
def log2 (n : Nat) : Nat := log2Aux n n

/-- Quotient `n / d` rounded to the nearest integer, ties to the even one. -/
def rne (n d : Nat) : Nat :=
  let q := n / d
  let r := n % d
  if 2 * r < d then q else if d < 2 * r then q + 1 else if q % 2 = 0 then q else q + 1

/-- Binary exponent of the positive rational `n / d`: the `E` with
`2 ^ E ≤ n / d < 2 ^ (E + 1)`. -/
def expo (n d : Nat) : Int :=
  let k : Int := (log2 n : Int) - (log2 d : Int)
  if d * 2 ^ k.toNat ≤ n * 2 ^ (-k).toNat then k else k - 1

/-- The non-negative rational `n / d` rounded to 53 significant bits, ties to
even; the result is returned as numerator and denominator. With
`e = expo n d - 52` the scaled value `n / d / 2 ^ e` lies in `[2^52, 2^53)`, is
rounded to an integer `m`, and the result is `m * 2 ^ e`. -/
def round53 (n d : Nat) : Nat × Nat :=
  if n = 0 then (0, 1) else
  let e := expo n d - 52
  let m := rne (n * 2 ^ (-e).toNat) (d * 2 ^ e.toNat)
  (m * 2 ^ e.toNat, 2 ^ (-e).toNat)

/-- A finite `float64`, as the exact rational `num / den`. -/
structure F64 where
  num : Int
  den : Nat
deriving DecidableEq

/-- The double nearest to the rational `n / d` (`d ≠ 0`). -/
def F64.round (n : Int) (d : Nat) : F64 :=
  let r := round53 n.natAbs d
  { num := n.sign * r.1, den := r.2 }

/-- Go's conversion `float64(n)` of an `int`. -/
def float64 (n : Int) : F64 := F64.round n 1

/-- Go's `x / y` on `float64`, for `y ≠ 0`. `Values` divides by
`float64(p.Size)` only after `p.Size <= 0` has been rejected, so the divisor is
at least `1` there. -/
def F64.div (x y : F64) : F64 :=
  F64.round (x.num * y.num.sign * y.den) (y.num.natAbs * x.den)

/-- Go's `math.Ceil`. -/
def Ceil (x : F64) : F64 := { num := -((-x.num) / x.den), den := 1 }

/-- Go's conversion `int(x)` of a `float64`: the fraction is discarded. When
the truncated value is not an `int` the Go specification leaves the result to
the implementation (amd64 yields `MinInt`, arm64 yields `MaxInt`); `ovf` is that
result. -/
def F64.toInt (ovf : Int) (x : F64) : Int :=
  let t := Int.tdiv x.num x.den
  if MinInt ≤ t ∧ t ≤ MaxInt then t else ovf

/-! ## The source -/

/-- The two error values of the package. -/
inductive Error where
  | ErrPageOutOfRange
  | ErrSizeOutOfRange
deriving DecidableEq

/-- The request, `type Pagination struct`. -/
structure Pagination where
  Page : Int
  Size : Int
  OrderBy : String
  SortBy : String
deriving DecidableEq

/-- The result, `type Query struct`. -/
structure Query where
  Offset : Int
  Limit : Int
  TotalPages : Int
  OrderBy : String
  SortBy : String
  NextPage : Int
  PrevPage : Int
deriving DecidableEq

/-- Go's zero value `Query{}`. -/
def Query.zero : Query :=
  { Offset := 0, Limit := 0, TotalPages := 0, OrderBy := "", SortBy := "",
    NextPage := 0, PrevPage := 0 }

/-- `func defaultStr(s, def string) string`. -/
def defaultStr (s dflt : String) : String :=
  if s = "" then dflt else s

/-- `func min(a, b int) int`. -/
def min (a b : Int) : Int := if a < b then a else b

/-- `func max(a, b int) int`. -/
def max (a b : Int) : Int := if a > b then a else b

/-- What a call `p.Values(totalItems)` leaves behind: the receiver `*p` after
the call, and the returned pair (`err = none` is Go's `nil`). -/
structure Outcome where
  p : Pagination
  query : Query
  err : Option Error
deriving DecidableEq

/-- `func (p *Pagination) Values(totalItems int) (Query, error)`. -/
def Values (ovf : Int) (p : Pagination) (totalItems : Int) : Outcome :=
  let p := if p.Page ≤ 0 then { p with Page := 1 } else p
  if p.Size ≤ 0 then
    { p := p, query := Query.zero, err := some Error.ErrSizeOutOfRange }
  else
    let totalPages := F64.toInt ovf (Ceil ((float64 totalItems).div (float64 p.Size)))
    let totalPages := if totalPages = 0 then 1 else totalPages
    if totalItems > 0 ∧ p.Page > totalPages then
      { p := p, query := Query.zero, err := some Error.ErrPageOutOfRange }
    else
      let orderBy := defaultStr p.OrderBy "created_at"
      let sortBy := defaultStr p.SortBy "DESC"
      { p := p,
        query :=
          { Offset := intMul (intSub p.Page 1) p.Size,
            Limit := p.Size,
            TotalPages := totalPages,
            OrderBy := orderBy,
            SortBy := sortBy,
            NextPage := min (intAdd p.Page 1) totalPages,
            PrevPage := max (intSub p.Page 1) 1 },
        err := none }

/-- The page `Values` works with: `page` if it is positive, else `1`. -/
def normPage (page : Int) : Int := if page ≤ 0 then 1 else page

/-- The value `totalPages` holds at line 56 of `pagination.go`. -/
def totalPagesOf (ovf : Int) (totalItems size : Int) : Int :=
  let totalPages := F64.toInt ovf (Ceil ((float64 totalItems).div (float64 size)))
  if totalPages = 0 then 1 else totalPages

/-- The request as `Values` leaves it: only `Page` may have been rewritten. -/
def normalized (p : Pagination) : Pagination := { p with Page := normPage p.Page }

/-- The `Query` literal built at lines 63-71 of `pagination.go`. -/
def okQuery (ovf : Int) (p : Pagination) (totalItems : Int) : Query :=
  { Offset := intMul (intSub (normPage p.Page) 1) p.Size,
    Limit := p.Size,
    TotalPages := totalPagesOf ovf totalItems p.Size,
    OrderBy := defaultStr p.OrderBy "created_at",
    SortBy := defaultStr p.SortBy "DESC",
    NextPage := min (intAdd (normPage p.Page) 1) (totalPagesOf ovf totalItems p.Size),
    PrevPage := max (intSub (normPage p.Page) 1) 1 }

/-! ## Unfolding `Values` -/

theorem values_unfold (ovf : Int) (p : Pagination) (totalItems : Int) :
    Values ovf p totalItems =
      if p.Size ≤ 0 then
        { p := normalized p, query := Query.zero, err := some Error.ErrSizeOutOfRange }
      else if totalItems > 0 ∧ normPage p.Page > totalPagesOf ovf totalItems p.Size then
        { p := normalized p, query := Query.zero, err := some Error.ErrPageOutOfRange }
      else
        { p := normalized p, query := okQuery ovf p totalItems, err := none } := by
  unfold Values normalized okQuery totalPagesOf normPage
  by_cases hp : p.Page ≤ 0 <;> simp only [hp, if_true, if_false]

theorem values_of_size_le (ovf : Int) (p : Pagination) (totalItems : Int) (h : p.Size ≤ 0) :
    Values ovf p totalItems =
      { p := normalized p, query := Query.zero, err := some Error.ErrSizeOutOfRange } := by
  rw [values_unfold, if_pos h]

theorem values_of_page_gt (ovf : Int) (p : Pagination) (totalItems : Int) (hs : 0 < p.Size)
    (h : totalItems > 0 ∧ normPage p.Page > totalPagesOf ovf totalItems p.Size) :
    Values ovf p totalItems =
      { p := normalized p, query := Query.zero, err := some Error.ErrPageOutOfRange } := by
  rw [values_unfold, if_neg (not_le.mpr hs), if_pos h]

theorem values_of_ok (ovf : Int) (p : Pagination) (totalItems : Int) (hs : 0 < p.Size)
    (h : ¬ (totalItems > 0 ∧ normPage p.Page > totalPagesOf ovf totalItems p.Size)) :
    Values ovf p totalItems =
      { p := normalized p, query := okQuery ovf p totalItems, err := none } := by
  rw [values_unfold, if_neg (not_le.mpr hs), if_neg h]

/-- A call that returns no error went down the successful path. -/
theorem ok_of_err_none (ovf : Int) (p : Pagination) (totalItems : Int)
    (h : (Values ovf p totalItems).err = none) :
    0 < p.Size ∧ ¬ (totalItems > 0 ∧ normPage p.Page > totalPagesOf ovf totalItems p.Size) ∧
      (Values ovf p totalItems).query = okQuery ovf p totalItems := by
  rw [values_unfold] at h ⊢
  by_cases hs : p.Size ≤ 0
  · simp [hs] at h
  · by_cases hp : totalItems > 0 ∧ normPage p.Page > totalPagesOf ovf totalItems p.Size
    · simp [hs, hp] at h
    · refine ⟨not_le.mp hs, hp, ?_⟩
      rw [if_neg hs, if_neg hp]

/-! ## Machine arithmetic -/

theorem wrap_of_isInt (x : Int) (h : IsInt x) : wrap x = x := by
  unfold IsInt MinInt MaxInt at h
  unfold wrap
  omega

theorem normPage_pos (page : Int) : 1 ≤ normPage page := by
  unfold normPage; split <;> omega

theorem normPage_of_pos (page : Int) (h : 0 < page) : normPage page = page := by
  unfold normPage; rw [if_neg (not_le.mpr h)]

theorem normPage_of_nonpos (page : Int) (h : page ≤ 0) : normPage page = 1 := by
  unfold normPage; rw [if_pos h]

theorem normPage_le_maxInt (page : Int) (h : IsInt page) : normPage page ≤ MaxInt := by
  unfold IsInt MinInt MaxInt at h
  unfold normPage MaxInt; split <;> omega

theorem min_eq_min (a b : Int) : min a b = Min.min a b := by
  unfold min; split <;> omega

theorem max_eq_max (a b : Int) : max a b = Max.max a b := by
  unfold max; split <;> omega


/-! ## Rounding -/

theorem log2Aux_spec (fuel : Nat) : ∀ n : Nat, n ≤ fuel → n ≠ 0 →
    2 ^ log2Aux fuel n ≤ n ∧ n < 2 ^ (log2Aux fuel n + 1) := by
  induction fuel with
  | zero => intro n h h0; omega
  | succ f ih =>
    intro n h h0
    unfold log2Aux
    by_cases h2 : n < 2
    · rw [if_pos h2]; simp; omega
    · rw [if_neg h2]
      have := ih (n / 2) (by omega) (by omega)
      rw [pow_succ, pow_succ]
      rw [pow_succ] at this
      omega

theorem log2_spec (n : Nat) (h : n ≠ 0) : 2 ^ log2 n ≤ n ∧ n < 2 ^ (log2 n + 1) :=
  log2Aux_spec n n (le_refl n) h

theorem log2_one : log2 1 = 0 := by decide

theorem rne_le (n d K : Nat) (hd : 0 < d) (h : n ≤ K * d) : rne n d ≤ K := by
  have hq : n / d ≤ K := Nat.div_le_of_le_mul (by rw [Nat.mul_comm]; exact h)
  have hdm := Nat.div_add_mod n d
  have hm := Nat.mod_lt n hd
  unfold rne
  simp only
  by_cases hqK : n / d = K
  · have : n % d = 0 := by
      rw [hqK, Nat.mul_comm] at hdm; omega
    rw [if_pos (by omega)]; omega
  · split_ifs <;> omega

theorem le_rne (n d K : Nat) (hd : 0 < d) (h : K * d ≤ n) : K ≤ rne n d := by
  have hq : K ≤ n / d := (Nat.le_div_iff_mul_le hd).mpr h
  unfold rne
  simp only
  split_ifs <;> omega

theorem rne_eq_gap (n d K : Nat) (hd : 0 < d) (h : K * d < n) (he : rne n d = K) :
    2 * (n - K * d) ≤ d := by
  have hq : K ≤ n / d := (Nat.le_div_iff_mul_le hd).mpr (le_of_lt h)
  have hdm := Nat.div_add_mod n d
  have hm := Nat.mod_lt n hd
  unfold rne at he
  simp only at he
  have hqK : n / d = K := by
    split_ifs at he <;> omega
  rw [hqK] at he hdm
  rw [Nat.mul_comm] at hdm
  split_ifs at he <;> omega

theorem rne_mul_self (K d : Nat) (hd : 0 < d) : rne (K * d) d = K := by
  apply le_antisymm
  · exact rne_le _ _ _ hd (le_refl _)
  · exact le_rne _ _ _ hd (le_refl _)

theorem rne_one (n : Nat) : rne n 1 = n := by
  have := rne_mul_self n 1 (by omega)
  simpa using this


theorem expo_le (n d : Nat) (hn : 0 < n) (hd : 0 < d) :
    d * 2 ^ (expo n d).toNat ≤ n * 2 ^ (-(expo n d)).toNat := by
  have hln := log2_spec n (by omega)
  have hld := log2_spec d (by omega)
  unfold expo
  simp only
  split_ifs with ht
  · exact ht
  · rcases Nat.lt_or_ge (log2 d) (log2 n) with hk | hk
    · have e1 : ((log2 n : Int) - (log2 d : Int) - 1).toNat = log2 n - log2 d - 1 := by omega
      have e2 : (-((log2 n : Int) - (log2 d : Int) - 1)).toNat = 0 := by omega
      rw [e1, e2, pow_zero, Nat.mul_one]
      have hp : 2 ^ (log2 d + 1) * 2 ^ (log2 n - log2 d - 1) = 2 ^ log2 n := by
        rw [← pow_add]; congr 1; omega
      have : d * 2 ^ (log2 n - log2 d - 1) ≤ 2 ^ (log2 d + 1) * 2 ^ (log2 n - log2 d - 1) :=
        Nat.mul_le_mul_right _ (le_of_lt hld.2)
      omega
    · have e1 : ((log2 n : Int) - (log2 d : Int) - 1).toNat = 0 := by omega
      have e2 : (-((log2 n : Int) - (log2 d : Int) - 1)).toNat = log2 d - log2 n + 1 := by omega
      rw [e1, e2, pow_zero, Nat.mul_one]
      have hp : 2 ^ log2 n * 2 ^ (log2 d - log2 n + 1) = 2 ^ (log2 d + 1) := by
        rw [← pow_add]; congr 1; omega
      have : 2 ^ log2 n * 2 ^ (log2 d - log2 n + 1) ≤ n * 2 ^ (log2 d - log2 n + 1) :=
        Nat.mul_le_mul_right _ hln.1
      omega

theorem expo_one (n : Nat) (hn : 0 < n) : expo n 1 = log2 n := by
  have hln := log2_spec n (by omega)
  unfold expo
  simp only [log2_one]
  rw [if_pos]
  · simp
  · simp
    exact hln.1

/-- The scaled form of `expo_le`: `d * 2^52 ≤ n * 2^(-e)` when `e = expo n d - 52 ≤ 0`. -/
theorem expo_scaled (n d : Nat) (hn : 0 < n) (hd : 0 < d) (he : expo n d - 52 ≤ 0) :
    d * 2 ^ 52 ≤ n * 2 ^ (-(expo n d - 52)).toNat := by
  have h := expo_le n d hn hd
  generalize expo n d = E at h he
  rcases le_or_lt 0 E with hE | hE
  · lift E to Nat using hE
    have e1 : (E : Int).toNat = E := by omega
    have e2 : (-(E : Int)).toNat = 0 := by omega
    have e3 : (-((E : Int) - 52)).toNat = 52 - E := by omega
    rw [e1, e2, pow_zero, Nat.mul_one] at h
    rw [e3]
    have hp : 2 ^ E * 2 ^ (52 - E) = 2 ^ 52 := by
      rw [← pow_add]; congr 1; omega
    calc d * 2 ^ 52 = d * 2 ^ E * 2 ^ (52 - E) := by rw [Nat.mul_assoc, hp]
      _ ≤ n * 2 ^ (52 - E) := Nat.mul_le_mul_right _ h
  · obtain ⟨j, hj⟩ : ∃ j : Nat, E = -(j : Int) := ⟨(-E).toNat, by omega⟩
    subst hj
    have e1 : (-(j : Int)).toNat = 0 := by omega
    have e2 : (-(-(j : Int))).toNat = j := by omega
    have e3 : (-(-(j : Int) - 52)).toNat = j + 52 := by omega
    rw [e1, e2, pow_zero, Nat.mul_one] at h
    rw [e3, pow_add]
    calc d * 2 ^ 52 ≤ n * 2 ^ j * 2 ^ 52 := Nat.mul_le_mul_right _ h
      _ = n * (2 ^ j * 2 ^ 52) := by rw [Nat.mul_assoc]


theorem round53_den_pos (n d : Nat) : 0 < (round53 n d).2 := by
  unfold round53
  split_ifs
  · simp
  · simp only
    exact pow_pos (by norm_num) _

/-- Rounding the quotient of two integers, the dividend at most `2^53`, never
crosses an integer: with `c < a / b ≤ c + 1` the rounded quotient is again in
`(c, c + 1]`. The common factor `k` lets the quotient be given unreduced. -/
theorem round53_ceil (a b k c : Nat) (ha : a ≤ 2 ^ 53) (hb : 0 < b) (hk : 0 < k)
    (hc1 : c * b < a) (hc2 : a ≤ (c + 1) * b) :
    c * (round53 (a * k) (b * k)).2 < (round53 (a * k) (b * k)).1 ∧
      (round53 (a * k) (b * k)).1 ≤ (c + 1) * (round53 (a * k) (b * k)).2 := by
  have ha0 : 0 < a := by omega
  have hn : 0 < a * k := Nat.mul_pos ha0 hk
  have hd : 0 < b * k := Nat.mul_pos hb hk
  unfold round53
  rw [if_neg (by omega)]
  simp only
  rcases le_or_lt (expo (a * k) (b * k) - 52) 0 with he | he
  · -- the quotient is below `2^53`: the significand is scaled up by `s`
    have hsc := expo_scaled (a * k) (b * k) hn hd he
    have et : (expo (a * k) (b * k) - 52).toNat = 0 := by omega
    rw [et, pow_zero, Nat.mul_one, Nat.mul_one]
    generalize 2 ^ (-(expo (a * k) (b * k) - 52)).toNat = s at hsc ⊢
    have hs : 0 < s := by
      rcases Nat.eq_zero_or_pos s with h0 | h0
      · subst h0; simp at hsc; omega
      · exact h0
    -- cancel `k`
    have hsc2 : b * 2 ^ 52 ≤ a * s := by
      have : k * (b * 2 ^ 52) ≤ k * (a * s) := by
        calc k * (b * 2 ^ 52) = b * k * 2 ^ 52 := by ring
          _ ≤ a * k * s := hsc
          _ = k * (a * s) := by ring
      exact Nat.le_of_mul_le_mul_left this hk
    have hup : rne (a * k * s) (b * k) ≤ (c + 1) * s := by
      apply rne_le _ _ _ hd
      calc a * k * s ≤ (c + 1) * b * k * s := by
            exact Nat.mul_le_mul_right _ (Nat.mul_le_mul_right _ hc2)
        _ = (c + 1) * s * (b * k) := by ring
    have hlo : c * s ≤ rne (a * k * s) (b * k) := by
      apply le_rne _ _ _ hd
      calc c * s * (b * k) = c * b * k * s := by ring
        _ ≤ a * k * s := by
            exact Nat.mul_le_mul_right _ (Nat.mul_le_mul_right _ (le_of_lt hc1))
    refine ⟨lt_of_le_of_ne hlo ?_, hup⟩
    intro heq
    obtain ⟨g, hg⟩ : ∃ g, a = c * b + g := ⟨a - c * b, by omega⟩
    have hg1 : 1 ≤ g := by omega
    have hstrict : c * s * (b * k) < a * k * s := by
      have : c * s * (b * k) + 1 * (k * s) ≤ a * k * s := by
        calc c * s * (b * k) + 1 * (k * s) ≤ c * s * (b * k) + g * (k * s) := by
              exact Nat.add_le_add_left (Nat.mul_le_mul_right _ hg1) _
          _ = a * k * s := by rw [hg]; ring
      have hks : 0 < k * s := Nat.mul_pos hk hs
      omega
    have hgap := rne_eq_gap _ _ _ hd hstrict heq.symm
    have hgap2 : 2 * g * s ≤ b := by
      have h1 : a * k * s - c * s * (b * k) = g * (k * s) := by
        rw [hg]
        have : (c * b + g) * k * s = c * s * (b * k) + g * (k * s) := by ring
        omega
      rw [h1] at hgap
      have : k * (2 * g * s) ≤ k * b := by
        calc k * (2 * g * s) = 2 * (g * (k * s)) := by ring
          _ ≤ b * k := hgap
          _ = k * b := by ring
      exact Nat.le_of_mul_le_mul_left this hk
    have h2s : 2 * s ≤ b := by
      calc 2 * s = 2 * 1 * s := by ring
        _ ≤ 2 * g * s := Nat.mul_le_mul_right _ (Nat.mul_le_mul_left _ hg1)
        _ ≤ b := hgap2
    have h53 : 2 ^ 53 * s ≤ a * s := by
      calc 2 ^ 53 * s = 2 * s * 2 ^ 52 := by ring
        _ ≤ b * 2 ^ 52 := Nat.mul_le_mul_right _ h2s
        _ ≤ a * s := hsc2
    have ha53 : a = 2 ^ 53 := le_antisymm ha (Nat.le_of_mul_le_mul_right h53 hs)
    have hb2s : b = 2 * s := by
      apply le_antisymm _ h2s
      have : b * 2 ^ 52 ≤ 2 * s * 2 ^ 52 := by
        calc b * 2 ^ 52 ≤ a * s := hsc2
          _ = 2 * s * 2 ^ 52 := by rw [ha53]; ring
      exact Nat.le_of_mul_le_mul_right this (by norm_num)
    have hg' : g = 1 := by
      apply le_antisymm _ hg1
      have : g * (2 * s) ≤ 1 * (2 * s) := by
        calc g * (2 * s) = 2 * g * s := by ring
          _ ≤ b := hgap2
          _ = 1 * (2 * s) := by rw [hb2s]; ring
      exact Nat.le_of_mul_le_mul_right this (by omega)
    have hpar : 2 ^ 53 = 2 * (c * s) + 1 := by
      rw [← ha53, hg, hg', hb2s]; ring
    omega
  · -- the quotient is at least `2^53`: only `2^53 / 1` qualifies
    have hle := expo_le (a * k) (b * k) hn hd
    have es : (-(expo (a * k) (b * k) - 52)).toNat = 0 := by omega
    have es' : (-(expo (a * k) (b * k))).toNat = 0 := by omega
    obtain ⟨j, hj⟩ : ∃ j : Nat, expo (a * k) (b * k) = (j : Int) + 53 :=
      ⟨(expo (a * k) (b * k) - 53).toNat, by omega⟩
    rw [es' , pow_zero, Nat.mul_one] at hle
    simp only [es, pow_zero, Nat.mul_one]
    rw [hj] at hle ⊢
    have e1 : ((j : Int) + 53).toNat = j + 53 := by omega
    have e2 : ((j : Int) + 53 - 52).toNat = j + 1 := by omega
    rw [e1] at hle
    rw [e2]
    have hle2 : b * 2 ^ (j + 53) ≤ a := by
      have : k * (b * 2 ^ (j + 53)) ≤ k * a := by
        calc k * (b * 2 ^ (j + 53)) = b * k * 2 ^ (j + 53) := by ring
          _ ≤ a * k := hle
          _ = k * a := by ring
      exact Nat.le_of_mul_le_mul_left this hk
    have hj1 : 1 ≤ 2 ^ j := Nat.one_le_two_pow
    have hbj : b * 2 ^ j * 2 ^ 53 ≤ 1 * 2 ^ 53 := by
      calc b * 2 ^ j * 2 ^ 53 = b * 2 ^ (j + 53) := by rw [pow_add]; ring
        _ ≤ a := hle2
        _ ≤ 1 * 2 ^ 53 := by omega
    have hbj1 : b * 2 ^ j ≤ 1 := Nat.le_of_mul_le_mul_right hbj (by norm_num)
    have hb1 : b = 1 := by
      apply le_antisymm _ hb
      calc b = b * 1 := by ring
        _ ≤ b * 2 ^ j := Nat.mul_le_mul_left _ hj1
        _ ≤ 1 := hbj1
    subst hb1
    have hj0 : 2 ^ j = 1 := by omega
    have hjj : 2 ^ (j + 1) = 2 := by rw [pow_succ, hj0]; norm_num
    have ha53 : a = 2 ^ 53 := by
      apply le_antisymm ha
      calc 2 ^ 53 = 1 * (2 ^ j * 2 ^ 53) := by rw [hj0]; norm_num
        _ = 1 * 2 ^ (j + 53) := by rw [pow_add]
        _ ≤ a := hle2
    rw [hjj]
    have hm : rne (a * k) (1 * k * 2) = 2 ^ 52 := by
      have h := rne_mul_self (2 ^ 52) (1 * k * 2) (by omega)
      have : a * k = 2 ^ 52 * (1 * k * 2) := by
        rw [ha53]; ring
      rw [this]; exact h
    rw [hm]
    omega


/-- Conversion of a positive `int` to `float64` yields an integer `fb`: the
argument itself up to `2^53`, and something not below `2^53` beyond. -/
theorem round53_int (b : Nat) (hb : 0 < b) :
    ∃ fb : Nat, (round53 b 1).1 = fb * (round53 b 1).2 ∧ 1 ≤ fb ∧
      (b ≤ 2 ^ 53 → fb = b) ∧ (2 ^ 53 ≤ b → 2 ^ 53 ≤ fb) := by
  have hl := log2_spec b (by omega)
  unfold round53
  rw [if_neg (by omega), expo_one b hb]
  simp only
  rcases Nat.lt_or_ge 52 (log2 b) with h | h
  · obtain ⟨j, hj⟩ : ∃ j, log2 b = j + 53 := ⟨log2 b - 53, by omega⟩
    have e1 : ((log2 b : Int) - 52).toNat = j + 1 := by omega
    have e2 : (-((log2 b : Int) - 52)).toNat = 0 := by omega
    simp only [e1, e2, pow_zero, Nat.mul_one, Nat.one_mul]
    have hpow : 2 ^ log2 b = 2 ^ 52 * 2 ^ (j + 1) := by
      rw [hj, ← pow_add]; congr 1; omega
    have hm : 2 ^ 52 ≤ rne b (2 ^ (j + 1)) :=
      le_rne _ _ _ (pow_pos (by norm_num) _) (by rw [← hpow]; exact hl.1)
    have h2 : 2 ≤ 2 ^ (j + 1) := by
      rw [pow_succ]; have : 1 ≤ 2 ^ j := Nat.one_le_two_pow; omega
    have hbig : 2 ^ 53 ≤ rne b (2 ^ (j + 1)) * 2 ^ (j + 1) := by
      calc 2 ^ 53 = 2 ^ 52 * 2 := by norm_num
        _ ≤ rne b (2 ^ (j + 1)) * 2 ^ (j + 1) := Nat.mul_le_mul hm h2
    refine ⟨rne b (2 ^ (j + 1)) * 2 ^ (j + 1), rfl, by omega, ?_, fun _ => hbig⟩
    intro hb53
    have h53 : 2 ^ 53 ≤ 2 ^ log2 b := Nat.pow_le_pow_right (by norm_num) (by omega)
    have hbe : b = 2 ^ 52 * 2 ^ (j + 1) := by omega
    rw [hbe, rne_mul_self _ _ (pow_pos (by norm_num) _)]
  · have e1 : ((log2 b : Int) - 52).toNat = 0 := by omega
    simp only [e1, pow_zero, Nat.mul_one, rne_one]
    refine ⟨b, rfl, hb, fun _ => rfl, fun h => h⟩

theorem float64_natCast (b : Nat) (hb : 0 < b) :
    float64 (b : Int) = { num := ((round53 b 1).1 : Int), den := (round53 b 1).2 } := by
  unfold float64 F64.round
  have : (b : Int).sign = 1 := Int.sign_eq_one_of_pos (by omega)
  simp [this]

theorem div_natCast (n1 d1 n2 d2 : Nat) (h1 : 0 < n1) (h2 : 0 < n2) (hd2 : 0 < d2) :
    F64.div { num := (n1 : Int), den := d1 } { num := (n2 : Int), den := d2 } =
      { num := ((round53 (n1 * d2) (n2 * d1)).1 : Int), den := (round53 (n1 * d2) (n2 * d1)).2 } := by
  unfold F64.div F64.round
  have s2 : (n2 : Int).sign = 1 := Int.sign_eq_one_of_pos (by omega)
  have hpos : 0 < n1 * d2 := Nat.mul_pos h1 hd2
  have s1 : ((n1 : Int) * 1 * (d2 : Int)).sign = 1 :=
    Int.sign_eq_one_of_pos (by rw [Int.mul_one]; exact_mod_cast hpos)
  have na : ((n1 : Int) * 1 * (d2 : Int)).natAbs = n1 * d2 := by
    rw [Int.mul_one]; exact_mod_cast Int.natAbs_ofNat (n1 * d2)
  simp only [s2, s1, na, Int.natAbs_ofNat, Int.one_mul]

theorem ceil_toInt (ovf : Int) (N D c : Nat) (hD : 0 < D) (h1 : c * D < N)
    (h2 : N ≤ (c + 1) * D) (hc : c < 2 ^ 62) :
    F64.toInt ovf (Ceil { num := (N : Int), den := D }) = (c : Int) + 1 := by
  have hdiv : (-(N : Int)) / (D : Int) = -((c : Int) + 1) := by
    have hD' : (D : Int) ≠ 0 := by omega
    have : -(N : Int) = (((c : Int) + 1) * D - N) + (-((c : Int) + 1)) * D := by ring
    rw [this, Int.add_mul_ediv_right _ _ hD']
    have h1' : ((c * D : Nat) : Int) < (N : Int) := by exact_mod_cast h1
    have h2' : (N : Int) ≤ (((c + 1) * D : Nat) : Int) := by exact_mod_cast h2
    push_cast at h1' h2'
    rw [Int.ediv_eq_zero_of_lt (by linarith) (by linarith)]
    simp
  unfold Ceil F64.toInt
  simp only [hdiv, neg_neg, Nat.cast_one, Int.tdiv_one]
  rw [if_pos]
  unfold MinInt MaxInt
  omega


/-- Up to `2^53` items the floating-point computation of `totalPages` is exact:
the result is `c + 1` with `c * size < totalItems ≤ (c + 1) * size`. -/
theorem totalPagesOf_exact (ovf : Int) (a b : Nat) (ha0 : 0 < a) (ha : a ≤ 2 ^ 53)
    (hb : 0 < b) :
    ∃ c : Nat, totalPagesOf ovf (a : Int) (b : Int) = (c : Int) + 1 ∧
      c * b < a ∧ a ≤ (c + 1) * b := by
  obtain ⟨fa, hfa, -, hfa_eq, -⟩ := round53_int a ha0
  obtain ⟨fb, hfb, hfb1, hfb_eq, hfb_big⟩ := round53_int b hb
  have hfa' : fa = a := hfa_eq ha
  subst hfa'
  have hDa := round53_den_pos fa 1
  have hDb := round53_den_pos b 1
  have hc1 : (fa - 1) / fb * fb < fa := by
    have := Nat.div_mul_le_self (fa - 1) fb
    omega
  have hc2 : fa ≤ ((fa - 1) / fb + 1) * fb := by
    have := Nat.lt_mul_div_succ (fa - 1) hfb1
    rw [Nat.mul_comm] at this
    omega
  have hcs : (fa - 1) / fb < 2 ^ 62 := by
    have := Nat.div_le_self (fa - 1) fb
    omega
  have hk : 0 < (round53 fa 1).2 * (round53 b 1).2 := Nat.mul_pos hDa hDb
  have hr := round53_ceil fa fb ((round53 fa 1).2 * (round53 b 1).2) ((fa - 1) / fb) ha hfb1 hk
    hc1 hc2
  have hnum : (round53 fa 1).1 * (round53 b 1).2 = fa * ((round53 fa 1).2 * (round53 b 1).2) := by
    rw [hfa]; ring
  have hden : (round53 b 1).1 * (round53 fa 1).2 = fb * ((round53 fa 1).2 * (round53 b 1).2) := by
    rw [hfb]; ring
  have hN1 : 0 < (round53 fa 1).1 := by rw [hfa]; exact Nat.mul_pos ha0 hDa
  have hN2 : 0 < (round53 b 1).1 := by rw [hfb]; exact Nat.mul_pos hfb1 hDb
  have htp : totalPagesOf ovf (fa : Int) (b : Int) = (((fa - 1) / fb : Nat) : Int) + 1 := by
    have hne : ¬ ((((fa - 1) / fb : Nat) : Int) + 1 = 0) := by
      intro h
      have := Int.ofNat_nonneg ((fa - 1) / fb)
      linarith
    unfold totalPagesOf
    simp only
    rw [float64_natCast fa ha0, float64_natCast b hb, div_natCast _ _ _ _ hN1 hN2 hDb, hnum, hden,
      ceil_toInt ovf _ _ _ (round53_den_pos _ _) hr.1 hr.2 hcs]
    rw [if_neg hne]
  rcases Nat.lt_or_ge (2 ^ 53) b with hbig | hsmall
  · have hfb53 : 2 ^ 53 ≤ fb := hfb_big (le_of_lt hbig)
    have hc0 : (fa - 1) / fb = 0 := Nat.div_eq_of_lt (by omega)
    refine ⟨0, ?_, by omega, by omega⟩
    rw [htp, hc0]
  · have hfbb : fb = b := hfb_eq hsmall
    subst hfbb
    exact ⟨(fa - 1) / fb, htp, hc1, hc2⟩

theorem totalPagesOf_zero (ovf : Int) (size : Int) : totalPagesOf ovf 0 size = 1 := by
  unfold totalPagesOf float64 F64.div F64.round round53 Ceil F64.toInt MinInt MaxInt
  simp

/-- The rational ceiling, from the two integer inequalities that pin it down. -/
theorem ceil_div_eq (a b t : Int) (hb : 0 < b) (h1 : (t - 1) * b < a) (h2 : a ≤ t * b) :
    ⌈(a : ℚ) / (b : ℚ)⌉ = t := by
  have hbq : (0 : ℚ) < (b : ℚ) := by exact_mod_cast hb
  rw [Int.ceil_eq_iff]
  constructor
  · rw [lt_div_iff₀ hbq]
    have : (((t - 1) * b : Int) : ℚ) < ((a : Int) : ℚ) := by exact_mod_cast h1
    push_cast at this
    linarith
  · rw [div_le_iff₀ hbq]
    exact_mod_cast h2

theorem totalPagesOf_eq_ceil (ovf : Int) (totalItems size : Int) (h0 : 0 < totalItems)
    (h53 : totalItems ≤ 2 ^ 53) (hs : 0 < size) :
    totalPagesOf ovf totalItems size = ⌈(totalItems : ℚ) / (size : ℚ)⌉ ∧
      (totalPagesOf ovf totalItems size - 1) * size < totalItems ∧
      totalItems ≤ totalPagesOf ovf totalItems size * size := by
  lift totalItems to Nat using le_of_lt h0
  lift size to Nat using le_of_lt hs
  obtain ⟨c, hc, hc1, hc2⟩ := totalPagesOf_exact ovf totalItems size (by omega)
    (by exact_mod_cast h53) (by omega)
  have h1 : (totalPagesOf ovf totalItems size - 1) * size < totalItems := by
    rw [hc]; simp only [add_sub_cancel_right]; exact_mod_cast hc1
  have h2 : (totalItems : Int) ≤ totalPagesOf ovf totalItems size * size := by
    rw [hc]; exact_mod_cast hc2
  exact ⟨(ceil_div_eq _ _ _ hs h1 h2).symm, h1, h2⟩


/-! ## The field formulas (C1) -/

set_option maxRecDepth 100000

/-- C1, counterexample. With `totalItems = 0` every page is accepted, and for a
large page the products and sums of lines 64 and 69 leave the range of `int`:
for `page = 2^62 + 1`, `size = 2` the returned `Offset` is `-2^63`, not
`(page - 1) * size = 2^63`; for `page = 2^63 - 1`, `size = 10` the returned
`NextPage` is `-2^63`, not `min(page + 1, TotalPages) = 1`. -/
theorem values_fields_overflow :
    (IsInt 4611686018427387905 ∧ (0 : Int) < 2 ∧ (0 : Int) ≤ 0 ∧
      (Values MinInt ⟨4611686018427387905, 2, "", ""⟩ 0).err = none ∧
      ¬ ((Values MinInt ⟨4611686018427387905, 2, "", ""⟩ 0).query.Offset
          = (normPage 4611686018427387905 - 1) * 2)) ∧
    (IsInt 9223372036854775807 ∧ (0 : Int) < 10 ∧ (0 : Int) ≤ 0 ∧
      (Values MinInt ⟨9223372036854775807, 10, "", ""⟩ 0).err = none ∧
      ¬ ((Values MinInt ⟨9223372036854775807, 10, "", ""⟩ 0).query.NextPage
          = Min.min (normPage 9223372036854775807 + 1)
              (Values MinInt ⟨9223372036854775807, 10, "", ""⟩ 0).query.TotalPages)) := by
  decide

/-- C1, amended. On every successful call with `size > 0`, any `totalItems`, the
request's page an `int`, and `p` the normalized page: `Limit = size` and
`PrevPage = max(p - 1, 1)`;
`Offset = (p - 1) * size` whenever that product is at most `MaxInt`; and
`NextPage = min(p + 1, TotalPages)` whenever `p < MaxInt`. -/
theorem values_fields (ovf : Int) (p : Pagination) (totalItems : Int)
    (hsize : 0 < p.Size) (hpage : IsInt p.Page)
    (hok : (Values ovf p totalItems).err = none) :
    (Values ovf p totalItems).query.Limit = p.Size ∧
    (Values ovf p totalItems).query.PrevPage = Max.max (normPage p.Page - 1) 1 ∧
    ((normPage p.Page - 1) * p.Size ≤ MaxInt →
      (Values ovf p totalItems).query.Offset = (normPage p.Page - 1) * p.Size) ∧
    (normPage p.Page < MaxInt →
      (Values ovf p totalItems).query.NextPage
        = Min.min (normPage p.Page + 1) (Values ovf p totalItems).query.TotalPages) := by
  obtain ⟨-, -, hq⟩ := ok_of_err_none ovf p totalItems hok
  have h1 := normPage_pos p.Page
  have h2 := normPage_le_maxInt p.Page hpage
  have hsub : intSub (normPage p.Page) 1 = normPage p.Page - 1 :=
    wrap_of_isInt _ (by unfold IsInt MinInt MaxInt; unfold MaxInt at h2; omega)
  rw [hq]
  refine ⟨rfl, ?_, ?_, ?_⟩
  · show max (intSub (normPage p.Page) 1) 1 = _
    rw [hsub, max_eq_max]
  · intro hmul
    have h0 : 0 ≤ (normPage p.Page - 1) * p.Size := mul_nonneg (by omega) (le_of_lt hsize)
    show intMul (intSub (normPage p.Page) 1) p.Size = _
    rw [hsub]
    exact wrap_of_isInt _ ⟨by unfold MinInt; omega, hmul⟩
  · intro hlt
    have hadd : intAdd (normPage p.Page) 1 = normPage p.Page + 1 :=
      wrap_of_isInt _ (by unfold IsInt MinInt MaxInt; unfold MaxInt at hlt; omega)
    show min (intAdd (normPage p.Page) 1) (totalPagesOf ovf totalItems p.Size) = _
    rw [hadd, min_eq_min]
    rfl

/-- C1, witness: page 2 of 100 items, 10 per page. -/
theorem values_fields_witness :
    (Values MinInt ⟨2, 10, "", ""⟩ 100).query.Limit = 10 ∧
    (Values MinInt ⟨2, 10, "", ""⟩ 100).query.PrevPage = 1 ∧
    (Values MinInt ⟨2, 10, "", ""⟩ 100).query.Offset = 10 ∧
    (Values MinInt ⟨2, 10, "", ""⟩ 100).query.NextPage = 3 := by
  have h := values_fields MinInt ⟨2, 10, "", ""⟩ 100 (by decide) (by decide) (by decide)
  exact ⟨h.1, h.2.1, h.2.2.1 (by decide), by rw [h.2.2.2 (by decide)]; decide⟩

/-! ## The page bound (C2, C4, C5) -/

/-- C2, counterexample. For `totalItems = 2^53 + 1`, `size = 1` and
`page = 2^53 + 1` the call fails with `ErrPageOutOfRange` although the page is
not greater than `ceil(totalItems / size) = 2^53 + 1`: `float64(totalItems)` is
`2^53`. -/
theorem values_page_error_beyond_2_53 :
    IsInt 9007199254740993 ∧ (0 : Int) < 9007199254740993 ∧ (0 : Int) < 1 ∧
    ¬ ((Values MinInt ⟨9007199254740993, 1, "", ""⟩ 9007199254740993).err
          = some Error.ErrPageOutOfRange ↔
        ⌈((9007199254740993 : Int) : ℚ) / ((1 : Int) : ℚ)⌉ < normPage 9007199254740993) := by
  refine ⟨by decide, by decide, by decide, ?_⟩
  have herr : (Values MinInt ⟨9007199254740993, 1, "", ""⟩ 9007199254740993).err
      = some Error.ErrPageOutOfRange := by decide
  have hceil : ⌈((9007199254740993 : Int) : ℚ) / ((1 : Int) : ℚ)⌉ = 9007199254740993 := by
    rw [Int.cast_one, div_one, Int.ceil_intCast]
  have hp : normPage 9007199254740993 = 9007199254740993 := by decide
  rw [hceil, hp]
  intro h
  exact absurd (h.mp herr) (lt_irrefl _)

/-- C2, amended. For every `totalItems > 0`, every `size > 0` and every page:
when `Values` returns `ErrPageOutOfRange` the returned `Query` is the zero value,
and when it does not `Values` returns no error; and for `totalItems ≤ 2^53` it
returns `ErrPageOutOfRange` if and only if the normalized page is greater than
`ceil(totalItems / size)`. -/
theorem values_page_error_iff (ovf : Int) (p : Pagination) (totalItems : Int)
    (h0 : 0 < totalItems) (hsize : 0 < p.Size) :
    (totalItems ≤ 2 ^ 53 →
      ((Values ovf p totalItems).err = some Error.ErrPageOutOfRange ↔
        ⌈(totalItems : ℚ) / (p.Size : ℚ)⌉ < normPage p.Page)) ∧
    ((Values ovf p totalItems).err = some Error.ErrPageOutOfRange →
        (Values ovf p totalItems).query = Query.zero) ∧
    ((Values ovf p totalItems).err ≠ some Error.ErrPageOutOfRange →
        (Values ovf p totalItems).err = none) := by
  by_cases hgt : totalItems > 0 ∧ normPage p.Page > totalPagesOf ovf totalItems p.Size
  · rw [values_of_page_gt ovf p totalItems hsize hgt]
    refine ⟨fun h53 => ?_, fun _ => rfl, fun h => absurd rfl h⟩
    obtain ⟨hceil, -, -⟩ := totalPagesOf_eq_ceil ovf totalItems p.Size h0 h53 hsize
    rw [← hceil]
    exact ⟨fun _ => hgt.2, fun _ => rfl⟩
  · rw [values_of_ok ovf p totalItems hsize hgt]
    have hle : ¬ (totalPagesOf ovf totalItems p.Size < normPage p.Page) :=
      fun h => hgt ⟨h0, h⟩
    refine ⟨fun h53 => ?_, fun h => ?_, fun _ => rfl⟩
    · obtain ⟨hceil, -, -⟩ := totalPagesOf_eq_ceil ovf totalItems p.Size h0 h53 hsize
      rw [← hceil]
      refine ⟨fun h => ?_, fun h => absurd h hle⟩
      simp at h
    · simp at h

/-- C2, witness: 20 items, 10 per page, page 5 is out of range and page 2 is
not. -/
theorem values_page_error_iff_witness :
    (Values MinInt ⟨5, 10, "", ""⟩ 20).err = some Error.ErrPageOutOfRange ∧
    ⌈((20 : Int) : ℚ) / ((10 : Int) : ℚ)⌉ < 5 ∧
    (Values MinInt ⟨5, 10, "", ""⟩ 20).query = Query.zero ∧
    (Values MinInt ⟨2, 10, "", ""⟩ 20).err = none := by
  have h := values_page_error_iff MinInt ⟨5, 10, "", ""⟩ 20 (by decide) (by decide)
  have h2 := values_page_error_iff MinInt ⟨2, 10, "", ""⟩ 20 (by decide) (by decide)
  have herr : (Values MinInt ⟨5, 10, "", ""⟩ 20).err = some Error.ErrPageOutOfRange := by
    decide
  exact ⟨herr, (h.1 (by decide)).mp herr, h.2.1 herr, h2.2.2 (by decide)⟩

/-- C4, counterexample. For `totalItems = 2^53 + 1` and `size = 1` the call for
page 1 succeeds with `TotalPages = 2^53`, so `TotalPages * size < totalItems`. -/
theorem values_total_pages_beyond_2_53 :
    IsInt 9007199254740993 ∧ (0 : Int) < 9007199254740993 ∧ (0 : Int) < 1 ∧
    (Values MinInt ⟨1, 1, "", ""⟩ 9007199254740993).err = none ∧
    ¬ (((Values MinInt ⟨1, 1, "", ""⟩ 9007199254740993).query.TotalPages - 1) * 1
          < 9007199254740993 ∧
        9007199254740993
          ≤ (Values MinInt ⟨1, 1, "", ""⟩ 9007199254740993).query.TotalPages * 1) := by
  decide

/-- C4, amended. For `0 < totalItems ≤ 2^53` and `size > 0` on which `Values`
succeeds, the returned `TotalPages` equals `ceil(totalItems / size)`, the least
integer `n` with `n * size ≥ totalItems`. -/
theorem values_total_pages (ovf : Int) (p : Pagination) (totalItems : Int)
    (h0 : 0 < totalItems) (h53 : totalItems ≤ 2 ^ 53) (hsize : 0 < p.Size)
    (hok : (Values ovf p totalItems).err = none) :
    (Values ovf p totalItems).query.TotalPages = ⌈(totalItems : ℚ) / (p.Size : ℚ)⌉ ∧
    ((Values ovf p totalItems).query.TotalPages - 1) * p.Size < totalItems ∧
    totalItems ≤ (Values ovf p totalItems).query.TotalPages * p.Size := by
  obtain ⟨-, -, hq⟩ := ok_of_err_none ovf p totalItems hok
  rw [hq]
  exact totalPagesOf_eq_ceil ovf totalItems p.Size h0 h53 hsize

/-- C4, witness: 95 items, 10 per page, give 10 pages. -/
theorem values_total_pages_witness :
    (Values MinInt ⟨1, 10, "description", "ASC"⟩ 95).query.TotalPages = 10 ∧
    (Values MinInt ⟨1, 10, "description", "ASC"⟩ 95).query.TotalPages
      = ⌈((95 : Int) : ℚ) / ((10 : Int) : ℚ)⌉ := by
  have h := values_total_pages MinInt ⟨1, 10, "description", "ASC"⟩ 95 (by decide) (by decide)
    (by decide) (by decide)
  exact ⟨by decide, h.1⟩

/-- C5. With `totalItems = 0` and `size > 0` the call returns no error, whatever
the page, and `TotalPages` is `1`. -/
theorem values_empty (ovf : Int) (p : Pagination) (hsize : 0 < p.Size) :
    (Values ovf p 0).err = none ∧ (Values ovf p 0).err ≠ some Error.ErrPageOutOfRange ∧
    (Values ovf p 0).query.TotalPages = 1 := by
  have hno : ¬ ((0 : Int) > 0 ∧ normPage p.Page > totalPagesOf ovf 0 p.Size) :=
    fun h => absurd h.1 (lt_irrefl _)
  rw [values_of_ok ovf p 0 hsize hno]
  refine ⟨rfl, by simp, ?_⟩
  show totalPagesOf ovf 0 p.Size = 1
  exact totalPagesOf_zero ovf p.Size

/-- C5, witness: page 999999 of an empty data set. -/
theorem values_empty_witness :
    (Values MinInt ⟨999999, 10, "", ""⟩ 0).err = none ∧
    (Values MinInt ⟨999999, 10, "", ""⟩ 0).err ≠ some Error.ErrPageOutOfRange ∧
    (Values MinInt ⟨999999, 10, "", ""⟩ 0).query.TotalPages = 1 :=
  values_empty MinInt ⟨999999, 10, "", ""⟩ (by decide)

/-! ## Validation of the size (C3) -/

/-- C3. A request with `size ≤ 0` is answered with `ErrSizeOutOfRange` and the
zero-value `Query`, whatever the page, the order fields and `totalItems`. -/
theorem values_size_error (ovf : Int) (p : Pagination) (totalItems : Int)
    (hsize : p.Size ≤ 0) :
    (Values ovf p totalItems).err = some Error.ErrSizeOutOfRange ∧
    (Values ovf p totalItems).query =
      { Offset := 0, Limit := 0, TotalPages := 0, OrderBy := "", SortBy := "",
        NextPage := 0, PrevPage := 0 } := by
  rw [values_of_size_le ovf p totalItems hsize]
  exact ⟨rfl, rfl⟩

/-- C3, witness: a negative size. -/
theorem values_size_error_witness :
    (Values MinInt ⟨1, -10, "name", "ASC"⟩ 100).err = some Error.ErrSizeOutOfRange ∧
    (Values MinInt ⟨1, -10, "name", "ASC"⟩ 100).query =
      { Offset := 0, Limit := 0, TotalPages := 0, OrderBy := "", SortBy := "",
        NextPage := 0, PrevPage := 0 } :=
  values_size_error MinInt ⟨1, -10, "name", "ASC"⟩ 100 (by decide)

/-! ## Normalization of the page (C6) -/

/-- C6. A request with `page ≤ 0` gets the same `(Query, error)` pair as the
same request with `page = 1`. -/
theorem values_nonpositive_page (ovf : Int) (p : Pagination) (totalItems : Int)
    (hpage : p.Page ≤ 0) :
    ((Values ovf p totalItems).query, (Values ovf p totalItems).err) =
      ((Values ovf { p with Page := 1 } totalItems).query,
        (Values ovf { p with Page := 1 } totalItems).err) := by
  have h : Values ovf p totalItems = Values ovf { p with Page := 1 } totalItems := by
    unfold Values
    simp only [hpage, if_true]
    rfl
  rw [h]

/-- C6, witness: page `-1` of 100 items is page 1, and no error. -/
theorem values_nonpositive_page_witness :
    ((Values MinInt ⟨-1, 10, "", ""⟩ 100).query, (Values MinInt ⟨-1, 10, "", ""⟩ 100).err) =
      ((Values MinInt ⟨1, 10, "", ""⟩ 100).query, (Values MinInt ⟨1, 10, "", ""⟩ 100).err) ∧
    (Values MinInt ⟨-1, 10, "", ""⟩ 100).err = none :=
  ⟨values_nonpositive_page MinInt ⟨-1, 10, "", ""⟩ 100 (by decide), by decide⟩

/-! ## Ordering defaults (C7) -/

/-- C7. On success `OrderBy` is `"created_at"` when the request's is empty and
the request's otherwise, and `SortBy` is `"DESC"` when the request's is empty and
the request's otherwise; each depends on its own request field only. -/
theorem values_order_sort (ovf : Int) (p : Pagination) (totalItems : Int)
    (hok : (Values ovf p totalItems).err = none) :
    (Values ovf p totalItems).query.OrderBy
      = (if p.OrderBy = "" then "created_at" else p.OrderBy) ∧
    (Values ovf p totalItems).query.SortBy = (if p.SortBy = "" then "DESC" else p.SortBy) := by
  obtain ⟨-, -, hq⟩ := ok_of_err_none ovf p totalItems hok
  rw [hq]
  exact ⟨rfl, rfl⟩

/-- C7, witness: an explicit order with the default sort direction. -/
theorem values_order_sort_witness :
    (Values MinInt ⟨1, 10, "description", ""⟩ 100).query.OrderBy = "description" ∧
    (Values MinInt ⟨1, 10, "description", ""⟩ 100).query.SortBy = "DESC" := by
  have h := values_order_sort MinInt ⟨1, 10, "description", ""⟩ 100 (by decide)
  exact ⟨by rw [h.1]; decide, by rw [h.2]; decide⟩

/-! ## The receiver after the call (C8) -/

/-- C8, counterexample. `Values` has a pointer receiver and line 46 assigns to
`p.Page`: after the call on `{Page: 0, Size: 10}` the request's `Page` is `1`. -/
theorem values_rewrites_page :
    ¬ ((Values MinInt ⟨0, 10, "", ""⟩ 100).p.Page = (⟨0, 10, "", ""⟩ : Pagination).Page ∧
       (Values MinInt ⟨0, 10, "", ""⟩ 100).p.Size = (⟨0, 10, "", ""⟩ : Pagination).Size ∧
       (Values MinInt ⟨0, 10, "", ""⟩ 100).p.OrderBy = (⟨0, 10, "", ""⟩ : Pagination).OrderBy ∧
       (Values MinInt ⟨0, 10, "", ""⟩ 100).p.SortBy = (⟨0, 10, "", ""⟩ : Pagination).SortBy) := by
  decide

/-- C8, amended. Whether the call succeeds or fails, the request's `Size`,
`OrderBy` and `SortBy` after the call equal their values before it, and so does
`Page` when it was positive. -/
theorem values_request_after (ovf : Int) (p : Pagination) (totalItems : Int) :
    (Values ovf p totalItems).p.Size = p.Size ∧
    (Values ovf p totalItems).p.OrderBy = p.OrderBy ∧
    (Values ovf p totalItems).p.SortBy = p.SortBy ∧
    (0 < p.Page → (Values ovf p totalItems).p.Page = p.Page) := by
  have hp : (Values ovf p totalItems).p = normalized p := by
    rw [values_unfold]
    split_ifs <;> rfl
  rw [hp]
  exact ⟨rfl, rfl, rfl, fun h => normPage_of_pos p.Page h⟩

/-- C8, witness: a failing call on a request with a positive page. -/
theorem values_request_after_witness :
    (Values MinInt ⟨7, 10, "name", "ASC"⟩ 20).err = some Error.ErrPageOutOfRange ∧
    (Values MinInt ⟨7, 10, "name", "ASC"⟩ 20).p = ⟨7, 10, "name", "ASC"⟩ := by
  have h := values_request_after MinInt ⟨7, 10, "name", "ASC"⟩ 20
  refine ⟨by decide, ?_⟩
  have h4 := h.2.2.2 (by decide)
  cases hv : (Values MinInt ⟨7, 10, "name", "ASC"⟩ 20).p with
  | mk pg sz ob sb =>
    rw [hv] at h h4
    simp only at h h4
    rw [h.1, h.2.1, h.2.2.1, h4]

/-! ## Neighbouring pages (C9, C10) -/

/-- C9. On success `NextPage ≤ TotalPages` and `PrevPage ≥ 1`. -/
theorem values_next_le_prev_ge (ovf : Int) (p : Pagination) (totalItems : Int)
    (hok : (Values ovf p totalItems).err = none) :
    (Values ovf p totalItems).query.NextPage ≤ (Values ovf p totalItems).query.TotalPages ∧
    1 ≤ (Values ovf p totalItems).query.PrevPage := by
  obtain ⟨-, -, hq⟩ := ok_of_err_none ovf p totalItems hok
  rw [hq]
  constructor
  · show min (intAdd (normPage p.Page) 1) (totalPagesOf ovf totalItems p.Size)
      ≤ totalPagesOf ovf totalItems p.Size
    rw [min_eq_min]; exact min_le_right _ _
  · show 1 ≤ max (intSub (normPage p.Page) 1) 1
    rw [max_eq_max]; exact le_max_right _ _

/-- C9, witness: the last page of three. -/
theorem values_next_le_prev_ge_witness :
    (Values MinInt ⟨3, 10, "", ""⟩ 25).query.NextPage
      ≤ (Values MinInt ⟨3, 10, "", ""⟩ 25).query.TotalPages ∧
    1 ≤ (Values MinInt ⟨3, 10, "", ""⟩ 25).query.PrevPage :=
  values_next_le_prev_ge MinInt ⟨3, 10, "", ""⟩ 25 (by decide)

/-- C10, counterexample. With `totalItems = 0` the page is not checked against
`TotalPages = 1`: page 5 succeeds with `PrevPage = 4 > max(TotalPages, 1)`, and
page `2^63 - 1` succeeds with `NextPage = -2^63 < 1`. -/
theorem values_neighbours_out_of_range :
    ((0 : Int) ≤ 0 ∧ (Values MinInt ⟨5, 10, "", ""⟩ 0).err = none ∧
      ¬ ((Values MinInt ⟨5, 10, "", ""⟩ 0).query.PrevPage
          ≤ Max.max (Values MinInt ⟨5, 10, "", ""⟩ 0).query.TotalPages 1)) ∧
    (IsInt 9223372036854775807 ∧ (0 : Int) ≤ 0 ∧
      (Values MinInt ⟨9223372036854775807, 10, "", ""⟩ 0).err = none ∧
      ¬ (1 ≤ (Values MinInt ⟨9223372036854775807, 10, "", ""⟩ 0).query.NextPage)) := by
  decide

/-- C10, amended. On every successful call with `totalItems ≥ 0` and the
request's page an `int`:
`1 ≤ PrevPage` and `NextPage ≤ max(TotalPages, 1)`; `PrevPage ≤ max(TotalPages, 1)`
when `totalItems > 0`; and `1 ≤ NextPage` when the normalized page is below
`MaxInt`. -/
theorem values_neighbours_range (ovf : Int) (p : Pagination) (totalItems : Int)
    (htotal : 0 ≤ totalItems) (hpage : IsInt p.Page)
    (hok : (Values ovf p totalItems).err = none) :
    1 ≤ (Values ovf p totalItems).query.PrevPage ∧
    (Values ovf p totalItems).query.NextPage
      ≤ Max.max (Values ovf p totalItems).query.TotalPages 1 ∧
    (0 < totalItems → (Values ovf p totalItems).query.PrevPage
      ≤ Max.max (Values ovf p totalItems).query.TotalPages 1) ∧
    (normPage p.Page < MaxInt → 1 ≤ (Values ovf p totalItems).query.NextPage) := by
  obtain ⟨hs, hno, hq⟩ := ok_of_err_none ovf p totalItems hok
  have h1 := normPage_pos p.Page
  have h2 := normPage_le_maxInt p.Page hpage
  have hsub : intSub (normPage p.Page) 1 = normPage p.Page - 1 :=
    wrap_of_isInt _ (by unfold IsInt MinInt MaxInt; unfold MaxInt at h2; omega)
  have hprev : (okQuery ovf p totalItems).PrevPage = Max.max (normPage p.Page - 1) 1 := by
    show max (intSub (normPage p.Page) 1) 1 = _
    rw [hsub, max_eq_max]
  have hnext : (okQuery ovf p totalItems).NextPage
      = Min.min (intAdd (normPage p.Page) 1) (totalPagesOf ovf totalItems p.Size) := by
    show min (intAdd (normPage p.Page) 1) (totalPagesOf ovf totalItems p.Size) = _
    rw [min_eq_min]
  have htp : (okQuery ovf p totalItems).TotalPages = totalPagesOf ovf totalItems p.Size := rfl
  have hpos : 1 ≤ totalPagesOf ovf totalItems p.Size := by
    rcases eq_or_lt_of_le htotal with h0 | h0
    · rw [← h0, totalPagesOf_zero]
    · by_contra hlt
      exact hno ⟨h0, by omega⟩
  rw [hq, hprev, hnext, htp]
  refine ⟨le_max_right _ _, ?_, ?_, ?_⟩
  · exact le_trans (min_le_right _ _) (le_max_left _ _)
  · intro h0
    have hle : normPage p.Page ≤ totalPagesOf ovf totalItems p.Size := by
      by_contra hlt
      exact hno ⟨h0, by omega⟩
    rw [max_le_iff]
    constructor
    · exact le_trans (by omega) (le_max_left _ _)
    · exact le_max_right _ _
  · intro hlt
    have hadd : intAdd (normPage p.Page) 1 = normPage p.Page + 1 :=
      wrap_of_isInt _ (by unfold IsInt MinInt MaxInt; unfold MaxInt at hlt; omega)
    rw [hadd, le_min_iff]
    exact ⟨by omega, hpos⟩

/-- C10, witness: page 2 of three. -/
theorem values_neighbours_range_witness :
    1 ≤ (Values MinInt ⟨2, 10, "", ""⟩ 25).query.PrevPage ∧
    (Values MinInt ⟨2, 10, "", ""⟩ 25).query.NextPage
      ≤ Max.max (Values MinInt ⟨2, 10, "", ""⟩ 25).query.TotalPages 1 ∧
    (Values MinInt ⟨2, 10, "", ""⟩ 25).query.PrevPage
      ≤ Max.max (Values MinInt ⟨2, 10, "", ""⟩ 25).query.TotalPages 1 ∧
    1 ≤ (Values MinInt ⟨2, 10, "", ""⟩ 25).query.NextPage := by
  have h := values_neighbours_range MinInt ⟨2, 10, "", ""⟩ 25 (by decide) (by decide)
    (by decide)
  exact ⟨h.1, h.2.1, h.2.2.1 (by decide), h.2.2.2 (by decide)⟩


/-! ## Rounding of negative quotients -/

theorem rne_eq_gap_up (n d K : Nat) (hd : 0 < d) (h : n < K * d) (he : rne n d = K) :
    2 * (K * d - n) ≤ d := by
  have hq : n / d < K := (Nat.div_lt_iff_lt_mul hd).mpr h
  have hdm := Nat.div_add_mod n d
  have hm := Nat.mod_lt n hd
  unfold rne at he
  simp only at he
  have hqK : n / d + 1 = K := by
    split_ifs at he <;> omega
  have hKd : K * d = d * (n / d) + d := by
    rw [← hqK]; ring
  split_ifs at he <;> omega

/-- When the quotient of two integers, the dividend at most `2^53`, reaches
`2^53`, it is `2^53 / 1` and its rounding is exact. -/
theorem round53_big (a b k : Nat) (ha : a ≤ 2 ^ 53) (hb : 0 < b) (hk : 0 < k) (ha0 : 0 < a)
    (he : 0 < expo (a * k) (b * k) - 52) :
    b = 1 ∧ a = 2 ^ 53 ∧ round53 (a * k) (b * k) = (2 ^ 53, 1) := by
  have hn : 0 < a * k := Nat.mul_pos ha0 hk
  have hd : 0 < b * k := Nat.mul_pos hb hk
  have hle := expo_le (a * k) (b * k) hn hd
  have es : (-(expo (a * k) (b * k) - 52)).toNat = 0 := by omega
  have es2 : (-(expo (a * k) (b * k))).toNat = 0 := by omega
  obtain ⟨j, hj⟩ : ∃ j : Nat, expo (a * k) (b * k) = (j : Int) + 53 :=
    ⟨(expo (a * k) (b * k) - 53).toNat, by omega⟩
  rw [es2, pow_zero, Nat.mul_one, hj] at hle
  have e1 : ((j : Int) + 53).toNat = j + 53 := by omega
  have e2 : ((j : Int) + 53 - 52).toNat = j + 1 := by omega
  rw [e1] at hle
  have hle2 : b * 2 ^ (j + 53) ≤ a := by
    have : k * (b * 2 ^ (j + 53)) ≤ k * a := by
      calc k * (b * 2 ^ (j + 53)) = b * k * 2 ^ (j + 53) := by ring
        _ ≤ a * k := hle
        _ = k * a := by ring
    exact Nat.le_of_mul_le_mul_left this hk
  have hj1 : 1 ≤ 2 ^ j := Nat.one_le_two_pow
  have hbj : b * 2 ^ j * 2 ^ 53 ≤ 1 * 2 ^ 53 := by
    calc b * 2 ^ j * 2 ^ 53 = b * 2 ^ (j + 53) := by rw [pow_add]; ring
      _ ≤ a := hle2
      _ ≤ 1 * 2 ^ 53 := by omega
  have hbj1 : b * 2 ^ j ≤ 1 := Nat.le_of_mul_le_mul_right hbj (by norm_num)
  have hb1 : b = 1 := by
    apply le_antisymm _ hb
    calc b = b * 1 := by ring
      _ ≤ b * 2 ^ j := Nat.mul_le_mul_left _ hj1
      _ ≤ 1 := hbj1
  have hj0 : 2 ^ j = 1 := by
    rw [hb1] at hbj1; omega
  have hjj : 2 ^ (j + 1) = 2 := by rw [pow_succ, hj0]; norm_num
  have ha53 : a = 2 ^ 53 := by
    apply le_antisymm ha
    calc 2 ^ 53 = b * (2 ^ j * 2 ^ 53) := by rw [hj0, hb1]; norm_num
      _ = b * 2 ^ (j + 53) := by rw [pow_add]
      _ ≤ a := hle2
  refine ⟨hb1, ha53, ?_⟩
  unfold round53
  rw [if_neg (by omega)]
  have es3 : (-((j : Int) + 53 - 52)).toNat = 0 := by omega
  simp only [hj, es3, e2, hjj, pow_zero, Nat.mul_one]
  have hm : rne (a * k) (b * k * 2) = 2 ^ 52 := by
    have h := rne_mul_self (2 ^ 52) (b * k * 2) (by omega)
    have : a * k = 2 ^ 52 * (b * k * 2) := by
      rw [ha53, hb1]; ring
    rw [this]; exact h
  rw [hm]
  norm_num

/-- The counterpart of `round53_ceil` for the floor: with `c ≤ a / b < c + 1`
the rounded quotient is again in `[c, c + 1)`. -/
theorem round53_floor (a b k c : Nat) (ha0 : 0 < a) (ha : a ≤ 2 ^ 53) (hb : 0 < b)
    (hk : 0 < k) (hc1 : c * b ≤ a) (hc2 : a < (c + 1) * b) :
    c * (round53 (a * k) (b * k)).2 ≤ (round53 (a * k) (b * k)).1 ∧
      (round53 (a * k) (b * k)).1 < (c + 1) * (round53 (a * k) (b * k)).2 := by
  have hn : 0 < a * k := Nat.mul_pos ha0 hk
  have hd : 0 < b * k := Nat.mul_pos hb hk
  rcases le_or_lt (expo (a * k) (b * k) - 52) 0 with he | he
  · have hsc := expo_scaled (a * k) (b * k) hn hd he
    have et : (expo (a * k) (b * k) - 52).toNat = 0 := by omega
    unfold round53
    rw [if_neg (by omega)]
    simp only
    rw [et, pow_zero, Nat.mul_one, Nat.mul_one]
    generalize 2 ^ (-(expo (a * k) (b * k) - 52)).toNat = s at hsc ⊢
    have hs : 0 < s := by
      rcases Nat.eq_zero_or_pos s with h0 | h0
      · subst h0; simp at hsc; omega
      · exact h0
    have hsc2 : b * 2 ^ 52 ≤ a * s := by
      have : k * (b * 2 ^ 52) ≤ k * (a * s) := by
        calc k * (b * 2 ^ 52) = b * k * 2 ^ 52 := by ring
          _ ≤ a * k * s := hsc
          _ = k * (a * s) := by ring
      exact Nat.le_of_mul_le_mul_left this hk
    have hup : rne (a * k * s) (b * k) ≤ (c + 1) * s := by
      apply rne_le _ _ _ hd
      calc a * k * s ≤ (c + 1) * b * k * s := by
            exact Nat.mul_le_mul_right _ (Nat.mul_le_mul_right _ (le_of_lt hc2))
        _ = (c + 1) * s * (b * k) := by ring
    have hlo : c * s ≤ rne (a * k * s) (b * k) := by
      apply le_rne _ _ _ hd
      calc c * s * (b * k) = c * b * k * s := by ring
        _ ≤ a * k * s := by
            exact Nat.mul_le_mul_right _ (Nat.mul_le_mul_right _ hc1)
    refine ⟨hlo, lt_of_le_of_ne hup ?_⟩
    intro heq
    obtain ⟨g, hg⟩ : ∃ g, (c + 1) * b = a + g := ⟨(c + 1) * b - a, by omega⟩
    have hg1 : 1 ≤ g := by omega
    have hprod : (c + 1) * s * (b * k) = a * k * s + g * (k * s) := by
      calc (c + 1) * s * (b * k) = (c + 1) * b * (k * s) := by ring
        _ = (a + g) * (k * s) := by rw [hg]
        _ = a * k * s + g * (k * s) := by ring
    have hks : 0 < k * s := Nat.mul_pos hk hs
    have hstrict : a * k * s < (c + 1) * s * (b * k) := by
      have : 1 * (k * s) ≤ g * (k * s) := Nat.mul_le_mul_right _ hg1
      omega
    have hgap := rne_eq_gap_up _ _ _ hd hstrict heq
    have hgap2 : 2 * g * s ≤ b := by
      have h1 : (c + 1) * s * (b * k) - a * k * s = g * (k * s) := by omega
      rw [h1] at hgap
      have : k * (2 * g * s) ≤ k * b := by
        calc k * (2 * g * s) = 2 * (g * (k * s)) := by ring
          _ ≤ b * k := hgap
          _ = k * b := by ring
      exact Nat.le_of_mul_le_mul_left this hk
    have h2s : 2 * s ≤ b := by
      calc 2 * s = 2 * 1 * s := by ring
        _ ≤ 2 * g * s := Nat.mul_le_mul_right _ (Nat.mul_le_mul_left _ hg1)
        _ ≤ b := hgap2
    have h53 : 2 ^ 53 * s ≤ a * s := by
      calc 2 ^ 53 * s = 2 * s * 2 ^ 52 := by ring
        _ ≤ b * 2 ^ 52 := Nat.mul_le_mul_right _ h2s
        _ ≤ a * s := hsc2
    have ha53 : a = 2 ^ 53 := le_antisymm ha (Nat.le_of_mul_le_mul_right h53 hs)
    have hb2s : b = 2 * s := by
      apply le_antisymm _ h2s
      have : b * 2 ^ 52 ≤ 2 * s * 2 ^ 52 := by
        calc b * 2 ^ 52 ≤ a * s := hsc2
          _ = 2 * s * 2 ^ 52 := by rw [ha53]; ring
      exact Nat.le_of_mul_le_mul_right this (by norm_num)
    have hg2 : g = 1 := by
      apply le_antisymm _ hg1
      have : g * (2 * s) ≤ 1 * (2 * s) := by
        calc g * (2 * s) = 2 * g * s := by ring
          _ ≤ b := hgap2
          _ = 1 * (2 * s) := by rw [hb2s]; ring
      exact Nat.le_of_mul_le_mul_right this (by omega)
    have hpar : 2 * ((c + 1) * s) = 2 ^ 53 + 1 := by
      calc 2 * ((c + 1) * s) = (c + 1) * (2 * s) := by ring
        _ = (c + 1) * b := by rw [hb2s]
        _ = 2 ^ 53 + 1 := by rw [hg, ha53, hg2]
    omega
  · obtain ⟨hb1, ha53, hr⟩ := round53_big a b k ha hb hk ha0 he
    rw [hr]
    subst hb1
    simp only
    omega


theorem float64_neg_natCast (a : Nat) (ha : 0 < a) :
    float64 (-(a : Int)) = { num := -((round53 a 1).1 : Int), den := (round53 a 1).2 } := by
  unfold float64 F64.round
  have hs : (-(a : Int)).sign = -1 := Int.sign_eq_neg_one_of_neg (by omega)
  simp [hs]

theorem div_neg_natCast (n1 d1 n2 d2 : Nat) (h1 : 0 < n1) (h2 : 0 < n2) (hd2 : 0 < d2) :
    F64.div { num := -(n1 : Int), den := d1 } { num := (n2 : Int), den := d2 } =
      { num := -((round53 (n1 * d2) (n2 * d1)).1 : Int),
        den := (round53 (n1 * d2) (n2 * d1)).2 } := by
  have s2 : (n2 : Int).sign = 1 := Int.sign_eq_one_of_pos (by omega)
  have hpos : 0 < n1 * d2 := Nat.mul_pos h1 hd2
  have hval : -(n1 : Int) * 1 * (d2 : Int) = -((n1 * d2 : Nat) : Int) := by
    push_cast; ring
  have s1 : (-((n1 * d2 : Nat) : Int)).sign = -1 :=
    Int.sign_eq_neg_one_of_neg (by omega)
  show F64.round (-(n1 : Int) * (n2 : Int).sign * (d2 : Int)) ((n2 : Int).natAbs * d1) = _
  rw [s2, hval, Int.natAbs_ofNat]
  unfold F64.round
  simp only [s1, Int.natAbs_neg, Int.natAbs_ofNat, neg_one_mul]

theorem ceil_toInt_neg (ovf : Int) (N D c : Nat) (h1 : c * D ≤ N)
    (h2 : N < (c + 1) * D) (hc : c < 2 ^ 62) :
    F64.toInt ovf (Ceil { num := -(N : Int), den := D }) = -(c : Int) := by
  have hdiv : (N : Int) / (D : Int) = (c : Int) := by
    have : N / D = c := by
      apply Nat.div_eq_of_lt_le
      · rw [Nat.mul_comm] at h1; rw [Nat.mul_comm]; exact h1
      · exact h2
    exact_mod_cast this
  unfold Ceil F64.toInt
  simp only [neg_neg, hdiv, Nat.cast_one, Int.tdiv_one]
  rw [if_pos]
  unfold MinInt MaxInt
  omega

/-- A negative item count of magnitude at most `2^53`: before the replacement of
`0` by `1` the page count is `-c` with `c = floor(|totalItems| / size)`. The
case `|totalItems| = 2^53 < size` is left out, as `float64(size)` may then be
`2^53` too. -/
theorem totalPagesOf_neg (ovf : Int) (a b : Nat) (ha0 : 0 < a) (ha : a ≤ 2 ^ 53)
    (hb : 0 < b) (hab : a < 2 ^ 53 ∨ b ≤ a) :
    ∃ c : Nat, totalPagesOf ovf (-(a : Int)) (b : Int) = (if c = 0 then 1 else -(c : Int)) ∧
      c * b ≤ a ∧ a < (c + 1) * b := by
  obtain ⟨fa, hfa, -, hfa_eq, -⟩ := round53_int a ha0
  obtain ⟨fb, hfb, hfb1, hfb_eq, hfb_big⟩ := round53_int b hb
  have hfa2 : fa = a := hfa_eq ha
  subst hfa2
  have hDa := round53_den_pos fa 1
  have hDb := round53_den_pos b 1
  have hc1 : fa / fb * fb ≤ fa := Nat.div_mul_le_self fa fb
  have hc2 : fa < (fa / fb + 1) * fb := by
    have := Nat.lt_mul_div_succ fa hfb1
    rw [Nat.mul_comm] at this
    exact this
  have hcs : fa / fb < 2 ^ 62 := by
    have := Nat.div_le_self fa fb
    omega
  have hk : 0 < (round53 fa 1).2 * (round53 b 1).2 := Nat.mul_pos hDa hDb
  have hr := round53_floor fa fb ((round53 fa 1).2 * (round53 b 1).2) (fa / fb) ha0 ha hfb1 hk
    hc1 hc2
  have hnum : (round53 fa 1).1 * (round53 b 1).2 = fa * ((round53 fa 1).2 * (round53 b 1).2) := by
    rw [hfa]; ring
  have hden : (round53 b 1).1 * (round53 fa 1).2 = fb * ((round53 fa 1).2 * (round53 b 1).2) := by
    rw [hfb]; ring
  have hN1 : 0 < (round53 fa 1).1 := by rw [hfa]; exact Nat.mul_pos ha0 hDa
  have hN2 : 0 < (round53 b 1).1 := by rw [hfb]; exact Nat.mul_pos hfb1 hDb
  have htp : totalPagesOf ovf (-(fa : Int)) (b : Int)
      = (if fa / fb = 0 then 1 else -((fa / fb : Nat) : Int)) := by
    unfold totalPagesOf
    simp only
    rw [float64_neg_natCast fa ha0, float64_natCast b hb, div_neg_natCast _ _ _ _ hN1 hN2 hDb,
      hnum, hden, ceil_toInt_neg ovf _ _ _ hr.1 hr.2 hcs]
    by_cases h0 : fa / fb = 0
    · rw [h0]; simp
    · rw [if_neg h0, if_neg]
      intro h
      have : ((fa / fb : Nat) : Int) = 0 := by linarith
      exact h0 (by exact_mod_cast this)
  rcases Nat.lt_or_ge (2 ^ 53) b with hbig | hsmall
  · have hfb53 : 2 ^ 53 ≤ fb := hfb_big (le_of_lt hbig)
    have hlt : fa < 2 ^ 53 := by omega
    have hc0 : fa / fb = 0 := Nat.div_eq_of_lt (by omega)
    refine ⟨0, ?_, by omega, by omega⟩
    rw [htp, hc0]
  · have hfbb : fb = b := hfb_eq hsmall
    subst hfbb
    exact ⟨fa / fb, htp, hc1, hc2⟩

/-- The page count for a negative `totalItems`, in the two ranges of interest. -/
theorem totalPagesOf_of_neg (ovf : Int) (totalItems size : Int) (ht : totalItems < 0)
    (hsize : 0 < size) :
    (-2 ^ 53 < totalItems → -size < totalItems → totalPagesOf ovf totalItems size = 1) ∧
    (-2 ^ 53 ≤ totalItems → totalItems ≤ -size →
      totalPagesOf ovf totalItems size = ⌈(totalItems : ℚ) / (size : ℚ)⌉ ∧
      totalPagesOf ovf totalItems size ≤ -1) := by
  obtain ⟨a, rfl⟩ : ∃ a : Nat, totalItems = -(a : Int) := ⟨(-totalItems).toNat, by omega⟩
  lift size to Nat using le_of_lt hsize
  have ha0 : 0 < a := by omega
  constructor
  · intro h53 hlt
    obtain ⟨c, hc, hc1, hc2⟩ := totalPagesOf_neg ovf a size ha0 (by omega) (by omega)
      (Or.inl (by omega))
    have hc0 : c = 0 := by
      by_contra hne
      have : 1 * size ≤ c * size := Nat.mul_le_mul_right _ (by omega)
      omega
    rw [hc, hc0]; simp
  · intro h53 hle
    obtain ⟨c, hc, hc1, hc2⟩ := totalPagesOf_neg ovf a size ha0 (by omega) (by omega)
      (Or.inr (by omega))
    have hcpos : 1 ≤ c := by
      by_contra hne
      have hc0 : c = 0 := by omega
      rw [hc0] at hc2
      omega
    rw [hc, if_neg (by omega)]
    refine ⟨(ceil_div_eq _ _ _ hsize ?_ ?_).symm, by omega⟩
    · have : ((a : Int)) < ((c : Int) + 1) * (size : Int) := by exact_mod_cast hc2
      linarith
    · have : (c : Int) * (size : Int) ≤ (a : Int) := by exact_mod_cast hc1
      linarith


/-! ## The empty data set (C11, C12) -/

/-- C11, counterexample. For `totalItems = 0`, `size = 10` the call for page
999999 succeeds, but its `Query` has `Offset = 9999980` and `PrevPage = 999998`,
while the `Query` for page 1 has `Offset = 0` and `PrevPage = 1`. -/
theorem values_empty_query_differs :
    (0 : Int) < 10 ∧ (Values MinInt ⟨999999, 10, "", ""⟩ 0).err = none ∧
    ¬ ((Values MinInt ⟨999999, 10, "", ""⟩ 0).query = (Values MinInt ⟨1, 10, "", ""⟩ 0).query) := by
  decide

/-- C11, amended. Against an empty data set with `size > 0` a request for any
page succeeds, and its `Query` agrees with the one for page 1 in `Limit`,
`TotalPages` (which is 1), `OrderBy` and `SortBy`, and also in `NextPage` (which
is 1) when the normalized page `p` is below `MaxInt`. `Offset` and `PrevPage` are
those of the requested page: `(p - 1) * size` and `max(p - 1, 1)` in the
program's integer arithmetic, which for a page that is an `int` is exactly
`max(p - 1, 1)`, and exactly `(p - 1) * size` whenever that product is at most
`MaxInt`. -/
theorem values_empty_query (ovf : Int) (p : Pagination) (hsize : 0 < p.Size) :
    (Values ovf p 0).err = none ∧
    (Values ovf p 0).query.Limit = (Values ovf { p with Page := 1 } 0).query.Limit ∧
    (Values ovf p 0).query.TotalPages = 1 ∧
    (Values ovf { p with Page := 1 } 0).query.TotalPages = 1 ∧
    (Values ovf p 0).query.OrderBy = (Values ovf { p with Page := 1 } 0).query.OrderBy ∧
    (Values ovf p 0).query.SortBy = (Values ovf { p with Page := 1 } 0).query.SortBy ∧
    (Values ovf { p with Page := 1 } 0).query.NextPage = 1 ∧
    (normPage p.Page < MaxInt → (Values ovf p 0).query.NextPage = 1) ∧
    (Values ovf p 0).query.Offset = intMul (intSub (normPage p.Page) 1) p.Size ∧
    (Values ovf p 0).query.PrevPage = max (intSub (normPage p.Page) 1) 1 ∧
    (IsInt p.Page →
      (Values ovf p 0).query.PrevPage = Max.max (normPage p.Page - 1) 1 ∧
      ((normPage p.Page - 1) * p.Size ≤ MaxInt →
        (Values ovf p 0).query.Offset = (normPage p.Page - 1) * p.Size)) := by
  have hno : ∀ q : Pagination, ¬ ((0 : Int) > 0 ∧ normPage q.Page > totalPagesOf ovf 0 q.Size) :=
    fun _ h => absurd h.1 (lt_irrefl _)
  have h1 := normPage_pos p.Page
  rw [values_of_ok ovf p 0 hsize (hno p),
    values_of_ok ovf { p with Page := 1 } 0 hsize (hno _)]
  refine ⟨rfl, rfl, totalPagesOf_zero ovf p.Size, totalPagesOf_zero ovf p.Size, rfl, rfl, ?_, ?_,
    rfl, rfl, ?_⟩
  · show min (intAdd (normPage 1) 1) (totalPagesOf ovf 0 p.Size) = 1
    rw [totalPagesOf_zero]
    decide
  · intro hlt
    have hadd : intAdd (normPage p.Page) 1 = normPage p.Page + 1 :=
      wrap_of_isInt _ (by unfold IsInt MinInt MaxInt; unfold MaxInt at hlt; omega)
    show min (intAdd (normPage p.Page) 1) (totalPagesOf ovf 0 p.Size) = 1
    rw [totalPagesOf_zero, hadd, min_eq_min]
    omega
  · intro hpage
    have h2 := normPage_le_maxInt p.Page hpage
    have hsub : intSub (normPage p.Page) 1 = normPage p.Page - 1 :=
      wrap_of_isInt _ (by unfold IsInt MinInt MaxInt; unfold MaxInt at h2; omega)
    constructor
    · show max (intSub (normPage p.Page) 1) 1 = _
      rw [hsub, max_eq_max]
    · intro hmul
      have hnn : 0 ≤ (normPage p.Page - 1) * p.Size := mul_nonneg (by omega) (le_of_lt hsize)
      show intMul (intSub (normPage p.Page) 1) p.Size = _
      rw [hsub]
      exact wrap_of_isInt _ ⟨by unfold MinInt; omega, hmul⟩

/-- C11, witness: page 999999 of an empty data set, 10 per page. -/
theorem values_empty_query_witness :
    (Values MinInt ⟨999999, 10, "", ""⟩ 0).err = none ∧
    (Values MinInt ⟨999999, 10, "", ""⟩ 0).query.TotalPages = 1 ∧
    (Values MinInt ⟨999999, 10, "", ""⟩ 0).query.NextPage = 1 ∧
    (Values MinInt ⟨999999, 10, "", ""⟩ 0).query.PrevPage = 999998 ∧
    (Values MinInt ⟨999999, 10, "", ""⟩ 0).query.Offset = 9999980 := by
  have h := values_empty_query MinInt ⟨999999, 10, "", ""⟩ (by decide)
  have hi := h.2.2.2.2.2.2.2.2.2.2 (by decide)
  exact ⟨h.1, h.2.2.1, h.2.2.2.2.2.2.2.1 (by decide), by rw [hi.1]; decide,
    by rw [hi.2 (by decide)]; decide⟩

/-- The page count is positive on every successful call with `totalItems ≥ 0`. -/
theorem totalPagesOf_pos_of_ok (ovf : Int) (p : Pagination) (totalItems : Int)
    (htotal : 0 ≤ totalItems)
    (hno : ¬ (totalItems > 0 ∧ normPage p.Page > totalPagesOf ovf totalItems p.Size)) :
    1 ≤ totalPagesOf ovf totalItems p.Size := by
  have h1 := normPage_pos p.Page
  rcases eq_or_lt_of_le htotal with h0 | h0
  · rw [← h0, totalPagesOf_zero]
  · by_contra hlt
    exact hno ⟨h0, by omega⟩

/-- C12. On every successful call with `size > 0` and `totalItems ≥ 0` the
returned `TotalPages` is at least 1. -/
theorem values_total_pages_pos (ovf : Int) (p : Pagination) (totalItems : Int)
    (htotal : 0 ≤ totalItems) (hok : (Values ovf p totalItems).err = none) :
    1 ≤ (Values ovf p totalItems).query.TotalPages := by
  obtain ⟨-, hno, hq⟩ := ok_of_err_none ovf p totalItems hok
  rw [hq]
  exact totalPagesOf_pos_of_ok ovf p totalItems htotal hno

/-- C12, witness: 3 items, 10 per page. -/
theorem values_total_pages_pos_witness :
    1 ≤ (Values MinInt ⟨1, 10, "", ""⟩ 3).query.TotalPages :=
  values_total_pages_pos MinInt ⟨1, 10, "", ""⟩ 3 (by decide) (by decide)

/-! ## The offset (C13) -/

/-- C13, counterexample. For `page = 2^62 + 1`, `size = 2` and `totalItems = 0`
the call succeeds and `(page - 1) * size = 2^63` wraps to `Offset = -2^63`. -/
theorem values_offset_negative :
    IsInt 4611686018427387905 ∧
    (Values MinInt ⟨4611686018427387905, 2, "", ""⟩ 0).err = none ∧
    (Values MinInt ⟨4611686018427387905, 2, "", ""⟩ 0).query.Offset
      = intMul (intSub (normPage 4611686018427387905) 1) 2 ∧
    ¬ (0 ≤ (Values MinInt ⟨4611686018427387905, 2, "", ""⟩ 0).query.Offset) := by
  decide

/-- C13, amended. On every successful call the returned `Offset` is
`(normalized page - 1) * size` in the program's integer arithmetic, and it is
non-negative whenever that product, taken in the integers, is at most `MaxInt`
(the request's page being an `int`). -/
theorem values_offset_nonneg (ovf : Int) (p : Pagination) (totalItems : Int)
    (hpage : IsInt p.Page) (hok : (Values ovf p totalItems).err = none) :
    (Values ovf p totalItems).query.Offset = intMul (intSub (normPage p.Page) 1) p.Size ∧
    ((normPage p.Page - 1) * p.Size ≤ MaxInt → 0 ≤ (Values ovf p totalItems).query.Offset) := by
  obtain ⟨hsize, -, hq⟩ := ok_of_err_none ovf p totalItems hok
  have h1 := normPage_pos p.Page
  have h2 := normPage_le_maxInt p.Page hpage
  have hsub : intSub (normPage p.Page) 1 = normPage p.Page - 1 :=
    wrap_of_isInt _ (by unfold IsInt MinInt MaxInt; unfold MaxInt at h2; omega)
  rw [hq]
  refine ⟨rfl, fun hmul => ?_⟩
  have h0 : 0 ≤ (normPage p.Page - 1) * p.Size := mul_nonneg (by omega) (le_of_lt hsize)
  show 0 ≤ intMul (intSub (normPage p.Page) 1) p.Size
  rw [hsub]
  unfold intMul
  rw [wrap_of_isInt _ ⟨by unfold MinInt; omega, hmul⟩]
  exact h0

/-- C13, witness: page 4 of 100 items, 10 per page, starts at offset 30. -/
theorem values_offset_nonneg_witness :
    (Values MinInt ⟨4, 10, "", ""⟩ 100).query.Offset = 30 ∧
    0 ≤ (Values MinInt ⟨4, 10, "", ""⟩ 100).query.Offset := by
  have h := values_offset_nonneg MinInt ⟨4, 10, "", ""⟩ 100 (by decide) (by decide)
  exact ⟨by rw [h.1]; decide, h.2 (by decide)⟩

/-! ## The receiver after the call, continued (C17, C18) -/

/-- C17. After the call, whatever its outcome, `Size`, `OrderBy` and `SortBy` of
the request are unchanged, and `Page` is 1 if it was `≤ 0` and unchanged
otherwise; a call that fails with `ErrSizeOutOfRange` has normalized `Page`
too. -/
theorem values_changes_page_only (ovf : Int) (p : Pagination) (totalItems : Int) :
    (Values ovf p totalItems).p.Size = p.Size ∧
    (Values ovf p totalItems).p.OrderBy = p.OrderBy ∧
    (Values ovf p totalItems).p.SortBy = p.SortBy ∧
    (Values ovf p totalItems).p.Page = (if p.Page ≤ 0 then 1 else p.Page) ∧
    (p.Size ≤ 0 → p.Page ≤ 0 →
      (Values ovf p totalItems).err = some Error.ErrSizeOutOfRange ∧
      (Values ovf p totalItems).p.Page = 1) := by
  have hp : (Values ovf p totalItems).p = normalized p := by
    rw [values_unfold]
    split_ifs <;> rfl
  refine ⟨by rw [hp]; rfl, by rw [hp]; rfl, by rw [hp]; rfl, by rw [hp]; rfl, ?_⟩
  intro hs hpg
  rw [values_of_size_le ovf p totalItems hs]
  exact ⟨rfl, normPage_of_nonpos p.Page hpg⟩

/-- C17, witness: a request with page 0 and size 0. -/
theorem values_changes_page_only_witness :
    (Values MinInt ⟨0, 0, "name", "ASC"⟩ 100).err = some Error.ErrSizeOutOfRange ∧
    (Values MinInt ⟨0, 0, "name", "ASC"⟩ 100).p.Page = 1 :=
  (values_changes_page_only MinInt ⟨0, 0, "name", "ASC"⟩ 100).2.2.2.2 (by decide) (by decide)

/-- C18. A second call on the request as the first call left it returns the
same `(Query, error)` pair and leaves the request as it is. -/
theorem values_idempotent (ovf : Int) (p : Pagination) (totalItems : Int) :
    ((Values ovf (Values ovf p totalItems).p totalItems).query,
        (Values ovf (Values ovf p totalItems).p totalItems).err) =
      ((Values ovf p totalItems).query, (Values ovf p totalItems).err) ∧
    (Values ovf (Values ovf p totalItems).p totalItems).p = (Values ovf p totalItems).p := by
  have hp : (Values ovf p totalItems).p = normalized p := by
    rw [values_unfold]
    split_ifs <;> rfl
  have hn : normPage (normPage p.Page) = normPage p.Page :=
    normPage_of_pos _ (by have := normPage_pos p.Page; omega)
  have hv : Values ovf (normalized p) totalItems = Values ovf p totalItems := by
    rw [values_unfold ovf (normalized p), values_unfold ovf p]
    unfold okQuery normalized
    simp only [hn]
  rw [hp, hv]
  exact ⟨rfl, hp⟩

/-! ## Pages and items (C14, C15) -/

/-- Up to `2^53` items an accepted page starts inside the data set, and its
offset is computed without overflow. -/
theorem okQuery_offset (ovf : Int) (p : Pagination) (totalItems : Int)
    (h0 : 0 < totalItems) (h53 : totalItems ≤ 2 ^ 53) (hsize : 0 < p.Size)
    (hle : normPage p.Page ≤ totalPagesOf ovf totalItems p.Size) :
    (okQuery ovf p totalItems).Offset = (normPage p.Page - 1) * p.Size ∧
    (normPage p.Page - 1) * p.Size < totalItems := by
  obtain ⟨-, hlo, -⟩ := totalPagesOf_eq_ceil ovf totalItems p.Size h0 h53 hsize
  have h1 := normPage_pos p.Page
  have hmono : (normPage p.Page - 1) * p.Size
      ≤ (totalPagesOf ovf totalItems p.Size - 1) * p.Size :=
    mul_le_mul_of_nonneg_right (by omega) (le_of_lt hsize)
  have hnn : 0 ≤ (normPage p.Page - 1) * p.Size := mul_nonneg (by omega) (le_of_lt hsize)
  have hge : normPage p.Page - 1 ≤ (normPage p.Page - 1) * p.Size := by
    have : (normPage p.Page - 1) * 1 ≤ (normPage p.Page - 1) * p.Size :=
      mul_le_mul_of_nonneg_left (by omega) (by omega)
    omega
  have hlt : (normPage p.Page - 1) * p.Size < totalItems := lt_of_le_of_lt hmono hlo
  have hsub : intSub (normPage p.Page) 1 = normPage p.Page - 1 :=
    wrap_of_isInt _ (by unfold IsInt MinInt MaxInt; norm_num at h53; omega)
  refine ⟨?_, hlt⟩
  show intMul (intSub (normPage p.Page) 1) p.Size = _
  rw [hsub]
  exact wrap_of_isInt _ (by unfold IsInt MinInt MaxInt; norm_num at h53; omega)

/-- C14, counterexample. For `totalItems = 2^53 + 1` and `size = 1` the item
with index `i = 2^53` belongs to page `floor(i / size) + 1 = 2^53 + 1`, and the
call for that page fails with `ErrPageOutOfRange`. -/
theorem values_partition_beyond_2_53 :
    (0 : Int) < 9007199254740993 ∧ (0 : Int) < 1 ∧ (0 : Int) ≤ 9007199254740992 ∧
    (9007199254740992 : Int) < 9007199254740993 ∧
    (9007199254740992 : Int) / 1 + 1 = 9007199254740993 ∧
    ¬ ((Values MinInt ⟨9007199254740993, 1, "", ""⟩ 9007199254740993).err = none ∧
       (Values MinInt ⟨9007199254740993, 1, "", ""⟩ 9007199254740993).query.Offset
          ≤ 9007199254740992 ∧
       9007199254740992
          < (Values MinInt ⟨9007199254740993, 1, "", ""⟩ 9007199254740993).query.Offset
            + (Values MinInt ⟨9007199254740993, 1, "", ""⟩ 9007199254740993).query.Limit) := by
  decide

/-- C14, amended. For `0 < totalItems ≤ 2^53`, `size > 0` and an item index
`0 ≤ i < totalItems`, a page `p ≥ 1` is accepted with
`Offset ≤ i < Offset + Limit` if and only if `p = floor(i / size) + 1`: the
accepted pages partition the items. -/
theorem values_pages_partition (ovf : Int) (totalItems size i : Int) (orderBy sortBy : String)
    (h0 : 0 < totalItems) (h53 : totalItems ≤ 2 ^ 53) (hsize : 0 < size)
    (hi0 : 0 ≤ i) (hi : i < totalItems) :
    1 ≤ i / size + 1 ∧
    ∀ page : Int, 1 ≤ page →
      (((Values ovf ⟨page, size, orderBy, sortBy⟩ totalItems).err = none ∧
        (Values ovf ⟨page, size, orderBy, sortBy⟩ totalItems).query.Offset ≤ i ∧
        i < (Values ovf ⟨page, size, orderBy, sortBy⟩ totalItems).query.Offset
            + (Values ovf ⟨page, size, orderBy, sortBy⟩ totalItems).query.Limit)
        ↔ page = i / size + 1) := by
  have hq0 : 0 ≤ i / size := Int.ediv_nonneg hi0 (le_of_lt hsize)
  refine ⟨by omega, fun page hpage => ?_⟩
  have hnp : normPage page = page := normPage_of_pos page (by omega)
  obtain ⟨-, hlo, hhi⟩ := totalPagesOf_eq_ceil ovf totalItems size h0 h53 hsize
  have hdm := Int.emod_add_ediv i size
  have hm0 := Int.emod_nonneg i (ne_of_gt hsize)
  have hm1 := Int.emod_lt_of_pos i hsize
  constructor
  · rintro ⟨hok, hoff, hwin⟩
    obtain ⟨-, hno, hq⟩ := ok_of_err_none ovf _ totalItems hok
    have hle : normPage page ≤ totalPagesOf ovf totalItems size := by
      by_contra hgt
      exact hno ⟨h0, by simpa using hgt⟩
    obtain ⟨hoffset, -⟩ := okQuery_offset ovf ⟨page, size, orderBy, sortBy⟩ totalItems h0 h53
      hsize hle
    rw [hq] at hoff hwin
    rw [hoffset] at hoff hwin
    have hlim : (okQuery ovf ⟨page, size, orderBy, sortBy⟩ totalItems).Limit = size := rfl
    rw [hlim] at hwin
    simp only [hnp] at hoff hwin
    -- `(page - 1) * size ≤ i < page * size`
    have h1 : page - 1 ≤ i / size := by
      rw [Int.le_ediv_iff_mul_le hsize]; exact hoff
    have h2 : i / size < page := by
      rw [Int.ediv_lt_iff_lt_mul hsize]; linarith
    omega
  · intro hpg
    have hoff : (page - 1) * size ≤ i := by
      rw [← Int.le_ediv_iff_mul_le hsize]; omega
    have hwin : i < page * size := by
      rw [← Int.ediv_lt_iff_lt_mul hsize]; omega
    have hle : normPage page ≤ totalPagesOf ovf totalItems size := by
      rw [hnp]
      by_contra hgt
      have hgt2 : totalPagesOf ovf totalItems size ≤ page - 1 := by omega
      have : totalPagesOf ovf totalItems size * size ≤ (page - 1) * size :=
        mul_le_mul_of_nonneg_right hgt2 (le_of_lt hsize)
      linarith
    have hno : ¬ (totalItems > 0 ∧
        normPage (⟨page, size, orderBy, sortBy⟩ : Pagination).Page
          > totalPagesOf ovf totalItems (⟨page, size, orderBy, sortBy⟩ : Pagination).Size) :=
      fun h => absurd h.2 (not_lt.mpr hle)
    obtain ⟨hoffset, -⟩ := okQuery_offset ovf ⟨page, size, orderBy, sortBy⟩ totalItems h0 h53
      hsize hle
    rw [values_of_ok ovf ⟨page, size, orderBy, sortBy⟩ totalItems hsize hno]
    refine ⟨rfl, ?_, ?_⟩
    · show (okQuery ovf ⟨page, size, orderBy, sortBy⟩ totalItems).Offset ≤ i
      rw [hoffset]; simp only [hnp]; exact hoff
    · show i < (okQuery ovf ⟨page, size, orderBy, sortBy⟩ totalItems).Offset + size
      rw [hoffset]; simp only [hnp]; linarith

/-- C14, witness: item 37 of 100, 10 per page, is on page 4 and on no other. -/
theorem values_pages_partition_witness :
    ((Values MinInt ⟨4, 10, "", ""⟩ 100).err = none ∧
      (Values MinInt ⟨4, 10, "", ""⟩ 100).query.Offset ≤ 37 ∧
      37 < (Values MinInt ⟨4, 10, "", ""⟩ 100).query.Offset
            + (Values MinInt ⟨4, 10, "", ""⟩ 100).query.Limit) ∧
    ¬ ((Values MinInt ⟨5, 10, "", ""⟩ 100).err = none ∧
      (Values MinInt ⟨5, 10, "", ""⟩ 100).query.Offset ≤ 37 ∧
      37 < (Values MinInt ⟨5, 10, "", ""⟩ 100).query.Offset
            + (Values MinInt ⟨5, 10, "", ""⟩ 100).query.Limit) := by
  have h := (values_pages_partition MinInt 100 10 37 "" "" (by decide) (by decide) (by decide)
    (by decide) (by decide)).2
  exact ⟨(h 4 (by decide)).mpr (by decide), fun h5 => absurd ((h 5 (by decide)).mp h5) (by decide)⟩

/-- C15, counterexample. `float64(2^53 + 3)` is `2^53 + 4`: for
`totalItems = 2^53 + 3` and `size = 1` the page `2^53 + 4` is accepted, with
`Offset = 2^53 + 3 = totalItems`. -/
theorem values_offset_beyond_items :
    IsInt 9007199254740996 ∧ (0 : Int) < 9007199254740995 ∧
    (Values MinInt ⟨9007199254740996, 1, "", ""⟩ 9007199254740995).err = none ∧
    ¬ ((Values MinInt ⟨9007199254740996, 1, "", ""⟩ 9007199254740995).query.Offset
        < 9007199254740995) := by
  decide

/-- C15, amended. For `0 < totalItems ≤ 2^53` and every request on which `Values`
succeeds, the returned `Offset` is strictly less than `totalItems`. -/
theorem values_offset_lt_items (ovf : Int) (p : Pagination) (totalItems : Int)
    (h0 : 0 < totalItems) (h53 : totalItems ≤ 2 ^ 53)
    (hok : (Values ovf p totalItems).err = none) :
    (Values ovf p totalItems).query.Offset < totalItems := by
  obtain ⟨hsize, hno, hq⟩ := ok_of_err_none ovf p totalItems hok
  have hle : normPage p.Page ≤ totalPagesOf ovf totalItems p.Size := by
    by_contra hgt
    exact hno ⟨h0, by omega⟩
  obtain ⟨hoffset, hlt⟩ := okQuery_offset ovf p totalItems h0 h53 hsize hle
  rw [hq, hoffset]
  exact hlt

/-- C15, witness: the last page of 95 items, 10 per page, starts at item 90. -/
theorem values_offset_lt_items_witness :
    (Values MinInt ⟨10, 10, "", ""⟩ 95).query.Offset < 95 :=
  values_offset_lt_items MinInt ⟨10, 10, "", ""⟩ 95 (by decide) (by decide) (by decide)

/-! ## The size of a converted quotient -/

/-- The one case `neighbours_of_page_lt` leaves out arises only with a
saturating conversion (`ovf = MaxInt`): then `totalItems = 2^63 - 1` with
`size = 1` gives `TotalPages = 2^63 - 1`, the page `2^63 - 1` is accepted and
`page + 1` wraps to `NextPage = -2^63`. With `ovf = MinInt` the same call is
rejected. -/
theorem next_page_wraps_when_saturating :
    (Values MaxInt ⟨9223372036854775807, 1, "", ""⟩ 9223372036854775807).err = none ∧
    (Values MaxInt ⟨9223372036854775807, 1, "", ""⟩ 9223372036854775807).query.NextPage
      = MinInt ∧
    (Values MinInt ⟨9223372036854775807, 1, "", ""⟩ 9223372036854775807).err
      = some Error.ErrPageOutOfRange := by
  decide

/-- C19, counterexample. For `totalItems = -2^53` and `size = 2^53 + 1` both
convert to the same `float64`, the quotient is `-1` and `TotalPages = -1`
although `-size < totalItems < 0`. For `totalItems = -(2^53 + 1)` and `size = 1`
the returned `TotalPages` is `-2^53`, not `ceil(totalItems / size)`. -/
theorem values_negative_total_beyond_2_53 :
    ((-9007199254740993 : Int) < -9007199254740992 ∧ (-9007199254740992 : Int) < 0 ∧
      (Values MinInt ⟨1, 9007199254740993, "", ""⟩ (-9007199254740992)).err = none ∧
      ¬ ((Values MinInt ⟨1, 9007199254740993, "", ""⟩ (-9007199254740992)).query.TotalPages
          = 1)) ∧
    ((-9007199254740993 : Int) ≤ -1 ∧
      (Values MinInt ⟨1, 1, "", ""⟩ (-9007199254740993)).err = none ∧
      ¬ ((Values MinInt ⟨1, 1, "", ""⟩ (-9007199254740993)).query.TotalPages
          = ⌈((-9007199254740993 : Int) : ℚ) / ((1 : Int) : ℚ)⌉)) := by
  refine ⟨by decide, by decide, by decide, ?_⟩
  have hceil : ⌈((-9007199254740993 : Int) : ℚ) / ((1 : Int) : ℚ)⌉ = -9007199254740993 := by
    rw [Int.cast_one, div_one, Int.ceil_intCast]
  rw [hceil]
  decide

/-- C19, amended. For `totalItems < 0` and `size > 0` the call returns no error
for any page. The returned `TotalPages` is 1 when `-size < totalItems` and
`-2^53 < totalItems`, and it is `ceil(totalItems / size) ≤ -1` when
`totalItems ≤ -size` and `-2^53 ≤ totalItems`. -/
theorem values_negative_total (ovf : Int) (p : Pagination) (totalItems : Int)
    (ht : totalItems < 0) (hsize : 0 < p.Size) :
    (Values ovf p totalItems).err = none ∧
    (-2 ^ 53 < totalItems → -p.Size < totalItems →
      (Values ovf p totalItems).query.TotalPages = 1) ∧
    (-2 ^ 53 ≤ totalItems → totalItems ≤ -p.Size →
      (Values ovf p totalItems).query.TotalPages = ⌈(totalItems : ℚ) / (p.Size : ℚ)⌉ ∧
      (Values ovf p totalItems).query.TotalPages ≤ -1) := by
  have hno : ¬ (totalItems > 0 ∧ normPage p.Page > totalPagesOf ovf totalItems p.Size) :=
    fun h => absurd h.1 (by omega)
  rw [values_of_ok ovf p totalItems hsize hno]
  exact ⟨rfl, totalPagesOf_of_neg ovf totalItems p.Size ht hsize⟩

/-- C19, witness: `-3` and `-30` items, 7 per page. -/
theorem values_negative_total_witness :
    (Values MinInt ⟨2, 7, "", ""⟩ (-3)).err = none ∧
    (Values MinInt ⟨2, 7, "", ""⟩ (-3)).query.TotalPages = 1 ∧
    (Values MinInt ⟨2, 7, "", ""⟩ (-30)).query.TotalPages
      = ⌈((-30 : Int) : ℚ) / ((7 : Int) : ℚ)⌉ ∧
    (Values MinInt ⟨2, 7, "", ""⟩ (-30)).query.TotalPages ≤ -1 := by
  have h3 := values_negative_total MinInt ⟨2, 7, "", ""⟩ (-3) (by decide) (by decide)
  have h30 := values_negative_total MinInt ⟨2, 7, "", ""⟩ (-30) (by decide) (by decide)
  exact ⟨h3.1, h3.2.1 (by decide) (by decide), h30.2.2 (by decide) (by decide)⟩

end GoPagination
